import Mathlib

/-!
Shallow embedding of the OneMind multi-character roleplay sandbox
(TypeScript sources: `src/App.tsx`, `src/lib/characterAI.ts`,
`src/lib/worldData.ts`, `src/lib/summarize.ts`, `src/types/chat.ts`).

Conventions of the embedding:
* JavaScript `undefined` on an optional field is modelled by `Option.none`
  (or by the empty string / empty list where the code only ever tests
  truthiness).
* `generateId()` (a random string) is modelled by a caller-supplied id,
  or by an id supply `Nat → String`; freshness/injectivity is assumed
  explicitly in theorems where it matters.
* The external text-generation call is modelled by its outcome
  (`Option`/`Except` of the returned payload), matching the spec's view
  of the provider as an opaque collaborator.
* React `setX(prev => ...)` functional updates compose sequentially, so a
  handler is modelled as a pure function on the state it touches.
-/

namespace OneMind

/-- Message categories, from `ChatMessage['type']` in `src/types/chat.ts`. -/
inductive MessageType where
  | user
  | character
  | exposition
  | narration
  | director
  | loading
  | summary
deriving DecidableEq

/-- `ChatMessage` from `src/types/chat.ts`; `charId` is the optional weak
back-reference to a character. -/
structure ChatMessage where
  id : String
  type : MessageType
  text : String
  sender : String
  charId : Option String := none
deriving DecidableEq

/-- `Character` from `src/types/chat.ts`. `groupChatId = ""` means
unassigned. -/
structure Character where
  id : String
  name : String
  description : String
  pfp_base64 : Option String := none
  groupChatId : String
  notes : List String
  quotes : List String
  knownCharacterIds : List String
deriving DecidableEq

/-- `GroupChat` (a location) from `src/types/chat.ts`. The TS `exposition`
is optional; `undefined` is modelled as `[]` (the code only reads it via
`gc.exposition || []` or `Array.isArray`). -/
structure GroupChat where
  id : String
  name : String
  description : String
  characterIds : List String
  exposition : List String := []
deriving DecidableEq

/-- The canonical in-memory world: the `characters` and `groupChats` React
state of `App.tsx`. -/
structure World where
  characters : List Character
  groupChats : List GroupChat
deriving DecidableEq

/-- A `Partial<Character>` patch as used by `updateCharacter` and the turn
executor. No call site ever patches `id`, so the embedding omits it. -/
structure CharacterPatch where
  name : Option String := none
  description : Option String := none
  pfp_base64 : Option String := none
  groupChatId : Option String := none
  notes : Option (List String) := none
  quotes : Option (List String) := none
  knownCharacterIds : Option (List String) := none
deriving DecidableEq

/-- A `Partial<GroupChat>` patch as used by `updateGroupChat`; `id` is
never patched. -/
structure GroupChatPatch where
  name : Option String := none
  description : Option String := none
  characterIds : Option (List String) := none
  exposition : Option (List String) := none
deriving DecidableEq

/-- Spread `{ ...char, ...updates }`: present fields override. -/
def applyCharacterPatch (c : Character) (u : CharacterPatch) : Character :=
  { c with
    name := u.name.getD c.name
    description := u.description.getD c.description
    pfp_base64 := match u.pfp_base64 with | some p => some p | none => c.pfp_base64
    groupChatId := u.groupChatId.getD c.groupChatId
    notes := u.notes.getD c.notes
    quotes := u.quotes.getD c.quotes
    knownCharacterIds := u.knownCharacterIds.getD c.knownCharacterIds }

/-- First-occurrence deduplication: `[...new Set(list)]` in JS keeps the
first occurrence of each element, in encounter order. -/
def jsSetDedupGo (seen : List String) : List String → List String
  | [] => []
  | x :: xs => if x ∈ seen then jsSetDedupGo seen xs else x :: jsSetDedupGo (x :: seen) xs

/-- `[...new Set(l)]`. -/
def jsSetDedup (l : List String) : List String := jsSetDedupGo [] l

/-- Map over locations, removing `cid` from the member list of the location
whose id is `chatId` (the "remove from old chat" shape in `App.tsx`). -/
def removeFromChat (gcs : List GroupChat) (chatId cid : String) : List GroupChat :=
  gcs.map fun g =>
    if g.id = chatId then { g with characterIds := g.characterIds.filter (fun x => x ≠ cid) } else g

/-- Map over locations, appending `cid` (filtered first to prevent
duplicates) to the member list of the location whose id is `chatId`. -/
def addToChat (gcs : List GroupChat) (chatId cid : String) : List GroupChat :=
  gcs.map fun g =>
    if g.id = chatId then
      { g with characterIds := g.characterIds.filter (fun x => x ≠ cid) ++ [cid] }
    else g

/-- `createCharacter` (`App.tsx` lines 114-129): the new character `c`
arrives with its freshly generated id already attached; if assigned, its id
is added (deduplicated via `new Set`) to the assigned chat's member list. -/
def createCharacter (w : World) (c : Character) : World :=
  { characters := w.characters ++ [c]
    groupChats :=
      if c.groupChatId ≠ "" then
        w.groupChats.map fun g =>
          if g.id = c.groupChatId then
            { g with characterIds := jsSetDedup (g.characterIds ++ [c.id]) }
          else g
      else w.groupChats }

/-- The nested location bookkeeping of `updateCharacter`: fired for a
matching character when the patch carries a truthy (non-empty) new
`groupChatId` that differs from the character's current one. -/
def updateCharacterMoveStep (cid : String) (u : CharacterPatch)
    (gcs : List GroupChat) (c : Character) : List GroupChat :=
  match u.groupChatId with
  | some g =>
    if g ≠ "" ∧ g ≠ c.groupChatId then addToChat (removeFromChat gcs c.groupChatId cid) g cid
    else gcs
  | none => gcs

/-- `updateCharacter` (`App.tsx` lines 131-155). The characters list is
mapped with the patch; for each matching character the reassignment check
`updates.groupChatId && updates.groupChatId !== char.groupChatId` (JS
truthiness: the empty string does not fire it) queues a remove-from-old /
add-to-new update of the locations, in list order. -/
def updateCharacter (w : World) (cid : String) (u : CharacterPatch) : World :=
  { characters := w.characters.map fun c => if c.id = cid then applyCharacterPatch c u else c
    groupChats :=
      w.characters.foldl
        (fun gcs c => if c.id = cid then updateCharacterMoveStep cid u gcs c else gcs)
        w.groupChats }

/-- `deleteCharacter` (`App.tsx` lines 157-173): no-op when the id is
unknown; otherwise remove the id from its location's member list, scrub it
from every `knownCharacterIds`, and drop the character. -/
def deleteCharacter (w : World) (cid : String) : World :=
  match w.characters.find? (fun c => c.id = cid) with
  | none => w
  | some ch =>
    { groupChats := removeFromChat w.groupChats ch.groupChatId cid
      characters :=
        (w.characters.map fun c =>
          { c with knownCharacterIds := c.knownCharacterIds.filter (fun k => k ≠ cid) }).filter
          (fun c => c.id ≠ cid) }

/-- `createGroupChat` (`App.tsx` lines 176-181): the new chat arrives with
its freshly generated id attached. -/
def createGroupChat (w : World) (g : GroupChat) : World :=
  { w with groupChats := w.groupChats ++ [g] }

/-- Spread `{ ...gc, ...updates }` for locations, after the
`characterIds` deduplication `updateGroupChat` performs on the patch. -/
def applyGroupChatPatch (g : GroupChat) (u : GroupChatPatch) : GroupChat :=
  { g with
    name := u.name.getD g.name
    description := u.description.getD g.description
    characterIds := match u.characterIds with
      | some ids => jsSetDedup ids
      | none => g.characterIds
    exposition := u.exposition.getD g.exposition }

/-- `updateGroupChat` (`App.tsx` lines 183-197): a present `characterIds`
patch (JS: any array, even empty, is truthy) is deduplicated before the
spread. -/
def updateGroupChat (w : World) (gid : String) (u : GroupChatPatch) : World :=
  { w with groupChats := w.groupChats.map fun g => if g.id = gid then applyGroupChatPatch g u else g }

/-- `deleteGroupChat` (`App.tsx` lines 199-211): delete every character
whose `groupChatId` is this chat (the list of victims is computed from the
state before any deletion), then drop the chat itself. -/
def deleteGroupChat (w : World) (gid : String) : World :=
  let targets := w.characters.filter (fun c => c.groupChatId = gid)
  let w' := targets.foldl (fun w c => deleteCharacter w c.id) w
  { w' with groupChats := w'.groupChats.filter (fun g => g.id ≠ gid) }

/-- `removeCharacterFromChat` (`App.tsx` lines 213-224). -/
def removeCharacterFromChat (w : World) (chatId cid : String) : World :=
  { groupChats := removeFromChat w.groupChats chatId cid
    characters := w.characters.map fun c => if c.id = cid then { c with groupChatId := "" } else c }

/-- JS `String.prototype.trim()`: strip leading and trailing whitespace.
(Defined structurally on the character list so that concrete instances
evaluate inside the kernel; Lean's own `String.trim` uses the same
whitespace predicate but is not kernel-reducible.) -/
def jsTrim (s : String) : String :=
  ⟨((s.data.dropWhile fun c => c.isWhitespace).reverse.dropWhile fun c => c.isWhitespace).reverse⟩

/-- Parsed tool-call input payload (`toolCall.input` fields, dynamically
typed in TS; an absent field is `none`). -/
structure ToolInput where
  note : Option String := none
  locationName : Option String := none
  name : Option String := none
deriving DecidableEq

/-- One invoked tool call; `input = none` models an invocation whose
payload is missing (`if (!toolCall.input) continue`). -/
structure ToolCall where
  toolName : String
  input : Option ToolInput
deriving DecidableEq

/-- The payload returned by the generation call that
`processCharacterTurnResult` inspects: generated text, reasoning content
(`""` models absent reasoning, matching the JS truthiness test), and the
invoked tool calls in invocation order. -/
structure GenResult where
  text : String
  reasoning : String := ""
  toolCalls : List ToolCall := []
deriving DecidableEq

/-- Token usage from `characterAI.ts` (`TokenUsage`). -/
structure TokenUsage where
  inputTokens : Nat
  outputTokens : Nat
  totalTokens : Nat
deriving DecidableEq

/-- `CharacterTurnResult` from `characterAI.ts`. `groupChatUpdates` is the
`Map<string, Partial<GroupChat>>` in insertion order; the TS `undefined`
map is modelled as `[]` (the controller treats both as "nothing to
apply"). -/
structure CharacterTurnResult where
  messages : List ChatMessage
  characterUpdates : Option CharacterPatch := none
  groupChatUpdates : List (String × GroupChatPatch) := []
  strangerLabel : Option String := none
  error : Option String := none
  usage : Option TokenUsage := none
deriving DecidableEq

/-- JS `Map.set`: an existing key keeps its position and gets the new
value; a new key is appended. -/
def mapSet (m : List (String × GroupChatPatch)) (k : String) (v : GroupChatPatch) :
    List (String × GroupChatPatch) :=
  if m.any (fun p => p.1 = k) then m.map (fun p => if p.1 = k then (k, v) else p) else m ++ [(k, v)]

/-- Accumulator for the tool-call loop of `processCharacterTurnResult`. -/
structure TurnAcc where
  messages : List ChatMessage
  patch : CharacterPatch
  gcUpdates : List (String × GroupChatPatch)
  hasMadeNote : Bool
  strangerLabel : Option String
  nextId : Nat
deriving DecidableEq

/-- One iteration of the tool-call loop in `processCharacterTurnResult`
(`characterAI.ts` lines 312-396). The id `supply` stands in for
`generateId()`. JS truthiness: an empty-string `note`, `locationName` or
all-whitespace `name` is skipped. The `makeNote` branch rebuilds the notes
from `character.notes` (not from a previously accumulated patch), exactly
as the source does. -/
def processToolCall (character : Character) (groupChat : GroupChat)
    (allGroupChats : List GroupChat) (supply : Nat → String) (acc : TurnAcc) (tc : ToolCall) :
    TurnAcc :=
  match tc.input with
  | none => acc
  | some input =>
    if tc.toolName = "makeNote" then
      match input.note with
      | some note =>
        if note ≠ "" then
          { acc with
            patch := { acc.patch with notes := some (character.notes ++ [note]) }
            messages := acc.messages ++
              [{ id := supply acc.nextId
                 sender := character.name
                 text := character.name ++ " noted: *" ++ note ++ "*"
                 type := .character
                 charId := some character.id }]
            hasMadeNote := true
            nextId := acc.nextId + 1 }
        else acc
      | none => acc
    else if tc.toolName = "moveToLocation" then
      match input.locationName with
      | some destName =>
        if destName = "" then acc
        else
          match allGroupChats.find? (fun gc => gc.name = destName) with
          | some destChat =>
            if destChat.id ≠ character.groupChatId then
              { acc with
                patch := { acc.patch with groupChatId := some destChat.id }
                gcUpdates :=
                  mapSet
                    (mapSet acc.gcUpdates groupChat.id
                      { characterIds := some (groupChat.characterIds.filter (fun x => x ≠ character.id)) })
                    destChat.id
                    { characterIds :=
                        some (destChat.characterIds.filter (fun x => x ≠ character.id) ++ [character.id]) }
                messages := acc.messages ++
                  [{ id := supply acc.nextId
                     sender := "Narrator"
                     text := "*" ++ character.name ++ " moved to " ++ destChat.name ++ ".*"
                     type := .narration }]
                nextId := acc.nextId + 1 }
            else
              { acc with
                messages := acc.messages ++
                  [{ id := supply acc.nextId
                     sender := "Narrator"
                     text := "*" ++ character.name ++ " is already at " ++ destName ++ ".*"
                     type := .narration }]
                nextId := acc.nextId + 1 }
          | none =>
            { acc with
              messages := acc.messages ++
                [{ id := supply acc.nextId
                   sender := "Narrator"
                   text := "*" ++ character.name ++ " tried to move to unknown location: " ++ destName ++ ".*"
                   type := .narration }]
              nextId := acc.nextId + 1 }
      | none => acc
    else if tc.toolName = "labelStranger" then
      match input.name with
      | some n => if jsTrim n ≠ "" then { acc with strangerLabel := some (jsTrim n) } else acc
      | none => acc
    else acc

/-- `processCharacterTurnResult` (`characterAI.ts` lines 297-433): run the
tool-call reducer, then append the dialogue message if the trimmed text is
non-empty, then the "is thinking" fallback when nothing was synthesized,
no reasoning was produced, and no note was taken. -/
def processCharacterTurnResult (result : GenResult) (character : Character)
    (groupChat : GroupChat) (allGroupChats : List GroupChat) (supply : Nat → String) :
    CharacterTurnResult :=
  let acc0 : TurnAcc :=
    { messages := [], patch := {}, gcUpdates := [], hasMadeNote := false
      strangerLabel := none, nextId := 0 }
  let acc := result.toolCalls.foldl (processToolCall character groupChat allGroupChats supply) acc0
  let dialogue := jsTrim result.text
  let hasReasoning := result.reasoning.length > 0
  let messages1 :=
    if dialogue ≠ "" then
      acc.messages ++
        [{ id := supply acc.nextId
           sender := character.name
           text := dialogue
           type := .character
           charId := some character.id }]
    else acc.messages
  let nextId1 := if dialogue ≠ "" then acc.nextId + 1 else acc.nextId
  let messages2 :=
    if messages1.length = 0 ∧ ¬hasReasoning ∧ acc.hasMadeNote = false then
      [{ id := supply nextId1
         sender := character.name
         text := "*" ++ character.name ++ " is thinking...*"
         type := .character
         charId := some character.id }]
    else messages1
  { messages := messages2
    characterUpdates := if acc.patch = {} then none else some acc.patch
    groupChatUpdates := acc.gcUpdates
    strangerLabel := acc.strangerLabel }

/-- `executeCharacterTurn` (`characterAI.ts` lines 220-292). Everything
inside the `try` block that can throw — persona assembly, catch-up
construction, and the generation call — is modelled by its collective
outcome: `.ok` carries the generation payload and the (optional) token
usage, `.error` the thrown error's message. The catch branch converts the
error into a single in-character message and stages no mutations. -/
def executeCharacterTurn (character : Character) (groupChat : GroupChat)
    (allGroupChats : List GroupChat)
    (outcome : Except String (GenResult × Option TokenUsage)) (supply : Nat → String) :
    CharacterTurnResult :=
  match outcome with
  | .ok (result, usage) =>
    { processCharacterTurnResult result character groupChat allGroupChats supply with
      usage := usage }
  | .error e =>
    { messages :=
        [{ id := supply 0
           sender := character.name
           text := "(An error occurred: " ++ e ++ ")"
           type := .character
           charId := some character.id }]
      error := some e }

/-- `SUMMARIZATION_CONFIG.TOKEN_THRESHOLD` from `summarize.ts`. -/
def TOKEN_THRESHOLD : Nat := 3000

/-- `SUMMARIZATION_CONFIG.RECENT_MESSAGES_TO_KEEP` from `summarize.ts`. -/
def RECENT_MESSAGES_TO_KEEP : Nat := 5

/-- `needsSummarization` from `summarize.ts` lines 21-23. -/
def needsSummarization (cumulativeInputTokens : Nat) : Bool :=
  cumulativeInputTokens ≥ TOKEN_THRESHOLD

/-- `Array.prototype.join(sep)`. -/
def joinSep (sep : String) : List String → String
  | [] => ""
  | [x] => x
  | x :: xs => x ++ sep ++ joinSep sep xs

/-- Rendering of one compression candidate in `summarizeOldMessages`
(director entries get the `[Director]` prefix). -/
def summarizeLine (m : ChatMessage) : String :=
  (if m.type = .director then "[Director]" else "") ++ m.sender ++ ": " ++ m.text

/-- The substantive (non-loading, non-summary) entries of a history. -/
def actualMessagesOf (messages : List ChatMessage) : List ChatMessage :=
  messages.filter (fun m => m.type ≠ .loading ∧ m.type ≠ .summary)

/-- The compression candidate set: everything before the last
`RECENT_MESSAGES_TO_KEEP` substantive entries (`slice(0, -keepCount)`). -/
def messagesToSummarizeOf (messages : List ChatMessage) : List ChatMessage :=
  let actual := actualMessagesOf messages
  actual.take (actual.length - RECENT_MESSAGES_TO_KEEP)

/-- The retained recent entries (`slice(-keepCount)`). -/
def messagesToKeepOf (messages : List ChatMessage) : List ChatMessage :=
  let actual := actualMessagesOf messages
  actual.drop (actual.length - RECENT_MESSAGES_TO_KEEP)

/-- The prompt submitted to the summarization model (`summarize.ts` lines
50-75): a fixed instruction block, then any prior summaries' text as a
"previous summary" block, then the rendered candidate lines. -/
def summarizePrompt (messages : List ChatMessage) : String :=
  let conversationText := joinSep "\n" ((messagesToSummarizeOf messages).map summarizeLine)
  let existingSummaries := messages.filter (fun m => m.type = .summary)
  let previousSummaryText :=
    if existingSummaries.length > 0 then
      "Previous summary:\n" ++ joinSep "\n\n" (existingSummaries.map (fun s => s.text)) ++
        "\n\nContinued conversation:\n"
    else ""
  ("You are summarizing a roleplay conversation to preserve context while reducing length.\n" ++
    "Create a concise summary that captures:\n" ++
    "- Key events and actions that occurred\n" ++
    "- Important character interactions and relationships established\n" ++
    "- Any significant plot developments or decisions made\n" ++
    "- Notable emotional beats or character moments\n\n" ++
    "Keep the summary factual and in past tense. Focus on information that would be relevant for continuing the story.\n" ++
    "Maximum 3-4 paragraphs.\n\n") ++ previousSummaryText ++ conversationText

/-- `summarizeOldMessages` (`summarize.ts` lines 29-105). The generation
call is modelled by its outcome: `some text` for a successful call
returning `text`, `none` for a thrown/failed call (the catch branch). The
fresh summary message id is caller-supplied. -/
def summarizeOldMessages (messages : List ChatMessage) (genOutcome : Option String)
    (newId : String) : List ChatMessage :=
  let loadingMessages := messages.filter (fun m => m.type = .loading)
  let messagesToSummarize := messagesToSummarizeOf messages
  let messagesToKeep := messagesToKeepOf messages
  if messagesToSummarize.length < 5 then messages
  else
    match genOutcome with
    | none => messages
    | some text =>
      { id := newId, type := .summary, sender := "Summary", text := jsTrim text } ::
        (messagesToKeep ++ loadingMessages)

/-- `getMessagesForContext` (`summarize.ts` lines 111-127): all summaries,
then the last `maxRecentMessages` non-summary messages, loading excluded. -/
def getMessagesForContext (messages : List ChatMessage) (maxRecentMessages : Nat) :
    List ChatMessage :=
  let filtered := messages.filter (fun m => m.type ≠ .loading)
  let summaries := filtered.filter (fun m => m.type = .summary)
  let nonSummaries := filtered.filter (fun m => m.type ≠ .summary)
  let recentMessages := nonSummaries.drop (nonSummaries.length - maxRecentMessages)
  summaries ++ recentMessages

/-- Rendering of one catch-up entry (`buildCatchupBlock`). -/
def renderCatchupLine (m : ChatMessage) : String :=
  if m.type = .director then "[Director]: " ++ m.text else m.sender ++ ": " ++ m.text

/-- The slice of messages strictly after this character's most recent
`character`-type message, or everything when the character has never
spoken. This is the backwards index search plus `slice(index + 1)` of
`buildCatchupBlock` (`characterAI.ts` lines 145-166); `indexOf` there
resolves by object identity, which for id-unique messages picks the same
position. -/
def afterLastTurn (characterName : String) (l : List ChatMessage) : List ChatMessage :=
  (l.reverse.takeWhile (fun m => ¬(m.sender = characterName ∧ m.type = .character))).reverse

/-- The summary block of `buildCatchupBlock`, as a zero-or-one element
part list. -/
def summaryPartsOf (messages : List ChatMessage) : List String :=
  let summaries := (getMessagesForContext messages 12).filter (fun m => m.type = .summary)
  if summaries.length > 0 then
    ["[Previous context summary]\n" ++ joinSep "\n\n" (summaries.map (fun s => s.text)) ++
      "\n[End of summary]"]
  else []

/-- The messages since the character's last turn, within the context
window. -/
def catchupMessagesOf (messages : List ChatMessage) (characterName : String) :
    List ChatMessage :=
  afterLastTurn characterName
    ((getMessagesForContext messages 12).filter (fun m => m.type ≠ .summary))

/-- The rendered (and trimmed) catch-up text of `buildCatchupBlock`. -/
def filteredCatchupOf (messages : List ChatMessage) (characterName : String) : String :=
  jsTrim (joinSep "\n"
    (((catchupMessagesOf messages characterName).filter
      (fun m => m.type ≠ .loading ∧ m.type ≠ .narration)).map renderCatchupLine))

/-- The joined parts (summary block plus catch-up text) of
`buildCatchupBlock`, before the empty-block substitution. -/
def catchupBlockBase (messages : List ChatMessage) (characterName : String) : String :=
  joinSep "\n\n"
    (summaryPartsOf messages ++
      (if filteredCatchupOf messages characterName ≠ "" then
        [filteredCatchupOf messages characterName]
      else []))

/-- The catch-up block after the take-initiative substitution (fires only
when the block is empty and no nudge was supplied). -/
def catchupWithDefault (messages : List ChatMessage) (characterName : String)
    (directorNudge : Option String) : String :=
  if catchupBlockBase messages characterName = "" ∧ directorNudge = none then
    "No one has said anything recently. Take the initiative."
  else catchupBlockBase messages characterName

/-- The catch-up block after prepending a private director nudge. -/
def catchupWithNudge (messages : List ChatMessage) (characterName : String)
    (directorNudge : Option String) : String :=
  match directorNudge with
  | some nudge =>
    let nudgeText :=
      "(Director\x27s Nudge: " ++ nudge ++
        ". Incorporate this into your character\x27s thoughts and next action.)"
    if catchupWithDefault messages characterName directorNudge ≠ "" then
      nudgeText ++ "\n\n" ++ catchupWithDefault messages characterName directorNudge
    else nudgeText
  | none => catchupWithDefault messages characterName directorNudge

/-- `buildCatchupBlock` (`characterAI.ts` lines 135-208), decomposed into
the stages above; the final stage appends the respond-directly directive
when the last relevant entry is a user message. The unused `_settings`
parameter is dropped. -/
def buildCatchupBlock (messages : List ChatMessage) (characterName : String)
    (directorNudge : Option String) : String :=
  match ((catchupMessagesOf messages characterName).filter
      (fun m => m.type ≠ .loading ∧ m.type ≠ .narration ∧ m.type ≠ .director)).getLast? with
  | some lastMessage =>
    if lastMessage.type = .user then
      catchupWithNudge messages characterName directorNudge ++
        "\n\n[" ++ lastMessage.sender ++ " is talking to you. Respond to them directly.]"
    else catchupWithNudge messages characterName directorNudge
  | none => catchupWithNudge messages characterName directorNudge

/-- The per-location token-counter flow of a character turn in
`handleSendMessage` (`App.tsx` lines 289-319 and 354-361): when the
pre-turn counter is due, summarization runs and resets the counter to
zero; afterwards the turn's reported input tokens (when usage is present)
are added to whatever the counter then holds. -/
def tokenCounterAfterTurn (preCounter : Nat) (turnUsage : Option TokenUsage) : Nat :=
  let afterSummarization := if needsSummarization preCounter then 0 else preCounter
  match turnUsage with
  | some u => afterSummarization + u.inputTokens
  | none => afterSummarization

/-- `handleRetryMessage` (`App.tsx` lines 412-511), as the transformation
of the location's history. The guards mirror the source: unknown message
id, non-character target, falsy `charId`, or unknown acting character
leave the history unchanged. `executeCharacterTurn` never throws (its
failures are returned), so the handler's own catch branch is dead for the
modelled paths. `loadingId` stands in for the `generateId()` of the
loading placeholder. -/
def handleRetryMessage (chatMessages : List ChatMessage) (messageId : String)
    (characters : List Character) (chat : GroupChat) (allGroupChats : List GroupChat)
    (outcome : Except String (GenResult × Option TokenUsage)) (supply : Nat → String)
    (loadingId : String) : List ChatMessage :=
  match chatMessages.findIdx? (fun m => m.id = messageId) with
  | none => chatMessages
  | some messageIndex =>
    match chatMessages[messageIndex]? with
    | none => chatMessages
    | some messageToRetry =>
      if messageToRetry.type ≠ .character then chatMessages
      else
        match messageToRetry.charId with
        | none => chatMessages
        | some targetCharId =>
          if targetCharId = "" then chatMessages
          else
            match characters.find? (fun c => c.id = targetCharId) with
            | none => chatMessages
            | some actingCharacter =>
              let trimmedMessages := chatMessages.take messageIndex
              let loadingMessage : ChatMessage :=
                { id := loadingId, sender := actingCharacter.name, text := ""
                  type := .loading, charId := some actingCharacter.id }
              let withLoading := trimmedMessages ++ [loadingMessage]
              let result := executeCharacterTurn actingCharacter chat allGroupChats outcome supply
              let afterRemove :=
                withLoading.filter
                  (fun m => m.type ≠ .loading ∨ m.charId ≠ some actingCharacter.id)
              afterRemove ++ result.messages

/-- One exported location (`WorldData['locations'][number]`). -/
structure WorldLocationData where
  name : String
  description : String
  exposition : List String
deriving DecidableEq

/-- One exported character (`WorldData['characters'][number]`); `location`
and `knownCharacters` are by name. -/
structure WorldCharacterData where
  name : String
  description : String
  pfp_base64 : Option String := none
  location : String
  quotes : List String
  notes : List String
  knownCharacters : List String
deriving DecidableEq

/-- The durable world export format (`WorldData` in `types/chat.ts`). -/
structure WorldData where
  locations : List WorldLocationData
  characters : List WorldCharacterData
deriving DecidableEq

/-- One exported location entry. -/
def exportLocationOf (gc : GroupChat) : WorldLocationData :=
  { name := gc.name, description := gc.description, exposition := gc.exposition }

/-- One exported character entry (`worldData.ts` lines 14-27). An
unassigned or dangling character falls back to the first location's name
(or the literal "Unknown Location"; `||` also rejects an empty first
name). The `filter(Boolean)` on resolved known-character names also drops
empty names. -/
def exportCharacterOf (characters : List Character) (groupChats : List GroupChat)
    (ch : Character) : WorldCharacterData :=
  { name := ch.name
    description := ch.description
    pfp_base64 := ch.pfp_base64
    location :=
      match groupChats.find? (fun gc => gc.id = ch.groupChatId) with
      | some loc => loc.name
      | none =>
        match groupChats.head? with
        | some g => if g.name = "" then "Unknown Location" else g.name
        | none => "Unknown Location"
    quotes := ch.quotes
    notes := ch.notes
    knownCharacters := ch.knownCharacterIds.filterMap fun i =>
      match characters.find? (fun c => c.id = i) with
      | some c => if c.name = "" then none else some c.name
      | none => none }

/-- `exportWorldData` (`worldData.ts` lines 7-29). -/
def exportWorldData (characters : List Character) (groupChats : List GroupChat) : WorldData :=
  { locations := groupChats.map exportLocationOf
    characters := characters.map (exportCharacterOf characters groupChats) }

/-- First pass of `importWorldData` (`worldData.ts` lines 38-49): create a
location for every entry with truthy name and description, consuming one
generated id each; empty exposition lines are dropped (`filter(Boolean)`).
Returns the locations and the next id index. -/
def importLocations (supply : Nat → String) : List WorldLocationData → Nat →
    List GroupChat × Nat
  | [], n => ([], n)
  | loc :: rest, n =>
    if loc.name ≠ "" ∧ loc.description ≠ "" then
      let gc : GroupChat :=
        { id := supply n, name := loc.name, description := loc.description
          characterIds := [], exposition := loc.exposition.filter (fun e => e ≠ "") }
      let r := importLocations supply rest (n + 1)
      (gc :: r.1, r.2)
    else importLocations supply rest n

/-- Update the first location with the given id (the in-place `push` onto
the object returned by `find` in the second import pass; ids are distinct
by generation). -/
def updateFirstChat (gcs : List GroupChat) (gid : String) (f : GroupChat → GroupChat) :
    List GroupChat :=
  match gcs with
  | [] => []
  | g :: rest => if g.id = gid then f g :: rest else g :: updateFirstChat rest gid f

/-- Second pass of `importWorldData` (`worldData.ts` lines 62-86): create a
character for every entry with truthy name and description; resolve its
location by exact name, defaulting to the first location; push the new id
onto the resolved location's member list; empty notes/quotes lines are
dropped. Returns the characters, the threaded locations, and the next id
index. -/
def importCharacters (supply : Nat → String) : List WorldCharacterData → List GroupChat → Nat →
    List Character × List GroupChat × Nat
  | [], gcs, n => ([], gcs, n)
  | c :: rest, gcs, n =>
    if c.name ≠ "" ∧ c.description ≠ "" then
      let gcFound :=
        match gcs.find? (fun g => g.name = c.location) with
        | some g => some g
        | none => gcs.head?
      let charId := supply n
      let assignedChatId := match gcFound with | some g => g.id | none => ""
      let gcs1 :=
        match gcFound with
        | some g =>
          updateFirstChat gcs g.id (fun x => { x with characterIds := x.characterIds ++ [charId] })
        | none => gcs
      let newChar : Character :=
        { id := charId, name := c.name, description := c.description
          pfp_base64 := c.pfp_base64, groupChatId := assignedChatId
          notes := c.notes.filter (fun x => x ≠ ""), quotes := c.quotes.filter (fun x => x ≠ "")
          knownCharacterIds := [] }
      let r := importCharacters supply rest gcs1 (n + 1)
      (newChar :: r.1, r.2.1, r.2.2)
    else importCharacters supply rest gcs n

/-- Resolution of known-character names back to generated ids (third pass
of the import): `knownNames.map(name => find(...)?.id).filter(Boolean)`. -/
def resolveKnownIds (chars : List Character) (names : List String) : List String :=
  names.filterMap fun nm =>
    match chars.find? (fun c => c.name = nm) with
    | some c => if c.id = "" then none else some c.id
    | none => none

/-- Update the first character with the given name (the in-place
assignment onto the object returned by `find` in the third pass). -/
def updateFirstCharByName (chars : List Character) (nm : String) (f : Character → Character) :
    List Character :=
  match chars with
  | [] => []
  | c :: rest => if c.name = nm then f c :: rest else c :: updateFirstCharByName rest nm f

/-- Third pass of `importWorldData` (`worldData.ts` lines 89-100): for each
source entry, resolve its `knownCharacters` names against the evolving
character list and store the ids on the matching imported character. -/
def linkKnownCharacters (data : List WorldCharacterData) (chars : List Character) :
    List Character :=
  data.foldl
    (fun chars src =>
      match chars.find? (fun c => c.name = src.name) with
      | none => chars
      | some _ =>
        updateFirstCharByName chars src.name
          (fun c => { c with knownCharacterIds := resolveKnownIds chars src.knownCharacters }))
    chars

/-- `importWorldData` (`worldData.ts` lines 31-103), with `generateId()`
modelled by the injective-by-assumption id supply. -/
def importWorldData (supply : Nat → String) (data : WorldData) :
    List Character × List GroupChat :=
  let p1 := importLocations supply data.locations 0
  let gcs0 := p1.1
  let defaultNeeded := gcs0.length = 0 ∧ data.characters.length ≠ 0
  let gcs1 :=
    if defaultNeeded then
      [{ id := supply p1.2, name := "Default Location", description := "A starting place"
         characterIds := [], exposition := ["A plain, featureless area."] }]
    else gcs0
  let n1 := if defaultNeeded then p1.2 + 1 else p1.2
  let p2 := importCharacters supply data.characters gcs1 n1
  let chars1 := linkKnownCharacters data.characters p2.1
  (chars1, p2.2.1)

/-- The bidirectional-index invariant at one location: its member set is
exactly the set of ids of characters assigned to it. -/
def InvariantAt (w : World) (L : GroupChat) : Prop :=
  (∀ cid ∈ L.characterIds, ∃ c ∈ w.characters, c.id = cid ∧ c.groupChatId = L.id) ∧
  (∀ c ∈ w.characters, c.groupChatId = L.id → c.id ∈ L.characterIds)

/-- The bidirectional-index invariant of the spec, over all locations. -/
def Consistent (w : World) : Prop := ∀ L ∈ w.groupChats, InvariantAt w L

/-- A well-formed world: consistent, with distinct character ids, distinct
non-empty location ids, and no dangling location references. These are the
structural facts `generateId`-based creation maintains. -/
def WellFormed (w : World) : Prop :=
  Consistent w ∧
  (w.characters.map (fun c => c.id)).Nodup ∧
  (w.groupChats.map (fun g => g.id)).Nodup ∧
  (∀ g ∈ w.groupChats, g.id ≠ "") ∧
  (∀ c ∈ w.characters, c.groupChatId = "" ∨ ∃ g ∈ w.groupChats, g.id = c.groupChatId)

/-- Application of a character turn's staged relocation updates, exactly as
the controller applies them (`App.tsx` lines 375-385 over the staging of
`processCharacterTurnResult`): `updateCharacter` with the new assignment,
then `updateGroupChat` with the staged member lists of the old and the
destination chat, in Map insertion order. A failed resolution stages
nothing. -/
def applyMoveTurn (w : World) (cid destName : String) : World :=
  match w.characters.find? (fun c => c.id = cid) with
  | none => w
  | some ch =>
    match w.groupChats.find? (fun g => g.id = ch.groupChatId) with
    | none => w
    | some chat =>
      match w.groupChats.find? (fun g => g.name = destName) with
      | none => w
      | some dest =>
        if dest.id ≠ ch.groupChatId then
          let w1 := updateCharacter w cid { groupChatId := some dest.id }
          let w2 := updateGroupChat w1 chat.id
            { characterIds := some (chat.characterIds.filter (fun x => x ≠ cid)) }
          updateGroupChat w2 dest.id
            { characterIds := some (dest.characterIds.filter (fun x => x ≠ cid) ++ [cid]) }
        else w

/-- The defined mutation operations of the app, with the argument
side conditions under which the UI invokes them: fresh generated ids,
character patches that never set `groupChatId` to the empty string and
only to existing locations, locations created with no members, standalone
location updates that do not patch the member list (member-list patches
only arrive through a relocation batch, covered by `moveTurn`), and
member removal invoked from the chat the character is actually in. -/
inductive WorldStep : World → World → Prop where
  | createChar (w : World) (c : Character) :
      c.id ∉ w.characters.map (fun x => x.id) →
      (c.groupChatId = "" ∨ ∃ g ∈ w.groupChats, g.id = c.groupChatId) →
      WorldStep w (createCharacter w c)
  | updateChar (w : World) (cid : String) (u : CharacterPatch) :
      (∀ g, u.groupChatId = some g → g ≠ "" ∧ ∃ L ∈ w.groupChats, L.id = g) →
      WorldStep w (updateCharacter w cid u)
  | deleteChar (w : World) (cid : String) : WorldStep w (deleteCharacter w cid)
  | createChat (w : World) (g : GroupChat) :
      g.characterIds = [] → g.id ≠ "" → g.id ∉ w.groupChats.map (fun x => x.id) →
      WorldStep w (createGroupChat w g)
  | updateChat (w : World) (gid : String) (u : GroupChatPatch) :
      u.characterIds = none → WorldStep w (updateGroupChat w gid u)
  | deleteChat (w : World) (gid : String) : WorldStep w (deleteGroupChat w gid)
  | removeFromChatStep (w : World) (chatId cid : String) :
      (∀ c ∈ w.characters, c.id = cid → c.groupChatId = chatId ∨ c.groupChatId = "") →
      WorldStep w (removeCharacterFromChat w chatId cid)
  | moveTurn (w : World) (cid destName : String) :
      WorldStep w (applyMoveTurn w cid destName)

/-- Projection of a location to the fields the world export preserves. -/
def locView (g : GroupChat) : String × String × List String :=
  (g.name, g.description, g.exposition)

/-- Name of the location a character is assigned to, resolved the way the
code resolves it (`find` by id). -/
def locNameOf (gcs : List GroupChat) (gid : String) : Option String :=
  (gcs.find? (fun g => g.id = gid)).map (fun g => g.name)

/-- Names of a character's known characters, resolved the way the code
resolves them (`find` by id). -/
def knownNamesOf (chars : List Character) (ids : List String) : List String :=
  ids.filterMap fun i => (chars.find? (fun c => c.id = i)).map (fun c => c.name)

/-- Projection of a character to the fields the world export preserves,
with location and relationships by name. -/
def charView (chars : List Character) (gcs : List GroupChat) (c : Character) :
    String × String × List String × List String × Option String × List String :=
  (c.name, c.description, c.notes, c.quotes, locNameOf gcs c.groupChatId,
    knownNamesOf chars c.knownCharacterIds)

/-- Reference shape of the first import pass when every location passes
the truthiness guard: one fresh id per entry, in order. -/
def stampLocations (supply : Nat → String) : Nat → List WorldLocationData → List GroupChat
  | _, [] => []
  | n, loc :: rest =>
    { id := supply n, name := loc.name, description := loc.description
      characterIds := [], exposition := loc.exposition.filter (fun e => e ≠ "") } ::
      stampLocations supply (n + 1) rest

/-- The id the second import pass assigns to a character: the location
matching by name, else the first location, else unassigned. -/
def resolveLocId (gcs : List GroupChat) (locName : String) : Option String :=
  match gcs.find? (fun g => g.name = locName) with
  | some g => some g.id
  | none => gcs.head?.map (fun g => g.id)

/-- Reference shape of the second import pass when every character passes
the truthiness guard, with location resolution against the (id,name)-stable
location list. -/
def stampCharacters (supply : Nat → String) (gcs : List GroupChat) :
    Nat → List WorldCharacterData → List Character
  | _, [] => []
  | n, c :: rest =>
    { id := supply n, name := c.name, description := c.description
      pfp_base64 := c.pfp_base64
      groupChatId := (resolveLocId gcs c.location).getD ""
      notes := c.notes.filter (fun x => x ≠ "")
      quotes := c.quotes.filter (fun x => x ≠ "")
      knownCharacterIds := [] } :: stampCharacters supply gcs (n + 1) rest

/-- The fields of a location the second import pass never mutates (it
only pushes member ids). -/
def chatFrame (g : GroupChat) : String × String × String × List String :=
  (g.id, g.name, g.description, g.exposition)

/-- The (name, id) pairs of a character list — the only data the third
pass of the import reads from the evolving list. -/
def nameIdPairs (chars : List Character) : List (String × String) :=
  chars.map (fun c => (c.name, c.id))

/-- `resolveKnownIds` expressed on (name, id) pairs. -/
def resolvePairs (pairs : List (String × String)) (names : List String) : List String :=
  names.filterMap fun nm =>
    match pairs.find? (fun p => p.1 = nm) with
    | some p => if p.2 = "" then none else some p.2
    | none => none

/-- Decidability of the per-location invariant. -/
instance (w : World) (L : GroupChat) : Decidable (InvariantAt w L) := by
  unfold InvariantAt; infer_instance

/-- Decidability of the bidirectional-index invariant. -/
instance (w : World) : Decidable (Consistent w) := by
  unfold Consistent; infer_instance

/-- Decidability of well-formedness. -/
instance (w : World) : Decidable (WellFormed w) := by
  unfold WellFormed; infer_instance

/-- Sample id supply for concrete witnesses. -/
def sampleSupply : Nat → String := fun n => toString n

/-- A provably injective, never-empty id supply for round-trip
witnesses. -/
def injSupply (n : Nat) : String := String.mk (List.replicate (n + 1) 'x')

/-- Sample character assigned to `sampleChat`. -/
def sampleChar : Character :=
  { id := "c1", name := "Alice", description := "da", groupChatId := "g1"
    notes := [], quotes := [], knownCharacterIds := [] }

/-- Sample character assigned to `sampleChat2`, knowing `sampleChar`. -/
def sampleChar2 : Character :=
  { id := "c2", name := "Bob", description := "db", groupChatId := "g2"
    notes := ["n1"], quotes := ["q1"], knownCharacterIds := ["c1"] }

/-- Sample location containing `sampleChar`. -/
def sampleChat : GroupChat :=
  { id := "g1", name := "Home", description := "dh", characterIds := ["c1"] }

/-- Sample location containing `sampleChar2`. -/
def sampleChat2 : GroupChat :=
  { id := "g2", name := "Park", description := "dp", characterIds := ["c2"] }

/-- Sample empty location for step-sequence witnesses. -/
def emptyHomeChat : GroupChat :=
  { id := "g1", name := "Home", description := "dh", characterIds := [] }

/-- Sample history with ten substantive messages, one loading placeholder
and one prior summary, for concrete witnesses. -/
def sampleHistory : List ChatMessage :=
  (List.range 10).map
    (fun n => { id := toString n, type := .user, text := "t" ++ toString n, sender := "u" }) ++
    [{ id := "ld", type := .loading, text := "", sender := "Alice", charId := some "c1" },
     { id := "sm", type := .summary, text := "old summary", sender := "Summary" }]

/-!
Theorems. Claim theorems are named `cN_...`; everything else is shared
proof infrastructure.
-/

/-- C2: with a location's cumulative token counter at 2999, a character
turn reporting 50 input tokens triggers no summarization and leaves the
counter at 3049; with the counter at or above the 3000 threshold, the next
character turn triggers summarization, resets the counter, and afterwards
the counter holds exactly that turn's own input tokens. -/
theorem c2_token_counter_flow :
    (needsSummarization 2999 = false ∧
      tokenCounterAfterTurn 2999
        (some { inputTokens := 50, outputTokens := 0, totalTokens := 50 }) = 3049) ∧
    (∀ pre : Nat, 3000 ≤ pre → ∀ u : TokenUsage,
      needsSummarization pre = true ∧ tokenCounterAfterTurn pre (some u) = u.inputTokens) := by
  refine ⟨⟨by decide, by decide⟩, fun pre hpre u => ?_⟩
  have hneed : needsSummarization pre = true := by
    simp [needsSummarization, TOKEN_THRESHOLD]
    omega
  refine ⟨hneed, ?_⟩
  simp [tokenCounterAfterTurn, hneed]

/-- Witness for C2 at a counter of 3000 and a turn of 50 input tokens. -/
theorem c2_token_counter_flow_witness :
    needsSummarization 3000 = true ∧
    tokenCounterAfterTurn 3000
      (some { inputTokens := 50, outputTokens := 0, totalTokens := 50 }) = 50 :=
  c2_token_counter_flow.2 3000 (by decide) { inputTokens := 50, outputTokens := 0, totalTokens := 50 }

/-- C5: when anything inside the turn's try block throws, the executor
returns exactly one character-type message reporting the error text in
parentheses, with no character update, no location-membership updates, no
stranger-label update, and no usage. -/
theorem c5_error_turn_single_message (character : Character) (groupChat : GroupChat)
    (allGroupChats : List GroupChat) (e : String) (supply : Nat → String) :
    executeCharacterTurn character groupChat allGroupChats (.error e) supply =
      { messages :=
          [{ id := supply 0, sender := character.name
             text := "(An error occurred: " ++ e ++ ")"
             type := .character, charId := some character.id }]
        characterUpdates := none, groupChatUpdates := [], strangerLabel := none
        error := some e, usage := none } := by
  rfl

/-- A non-empty string has positive length. -/
theorem string_length_pos_of_ne_empty (s : String) (h : s ≠ "") : s.length > 0 := by
  cases hl : s.length with
  | zero =>
    exfalso
    apply h
    apply String.ext
    have h2 : s.data.length = 0 := by rw [String.length_data, hl]
    exact List.length_eq_zero.mp h2
  | succ n => omega

/-- C8: a turn with no tool calls and text empty after trimming produces
zero messages when reasoning content is non-empty, and exactly the single
fallback "is thinking" character message when reasoning is empty. -/
theorem c8_reasoning_silent_or_fallback (character : Character) (groupChat : GroupChat)
    (allGroupChats : List GroupChat) (supply : Nat → String) (r : GenResult)
    (hcalls : r.toolCalls = []) (htext : jsTrim r.text = "") :
    (r.reasoning ≠ "" →
      (processCharacterTurnResult r character groupChat allGroupChats supply).messages = []) ∧
    (r.reasoning = "" →
      (processCharacterTurnResult r character groupChat allGroupChats supply).messages =
        [{ id := supply 0, sender := character.name
           text := "*" ++ character.name ++ " is thinking...*"
           type := .character, charId := some character.id }]) := by
  constructor
  · intro hr
    have hlen : r.reasoning.length > 0 := string_length_pos_of_ne_empty _ hr
    simp [processCharacterTurnResult, hcalls, htext, hlen]
  · intro hr
    simp [processCharacterTurnResult, hcalls, htext, hr]

/-- Witness for C8: a concrete reasoning-only turn yields no messages and
the same turn without reasoning yields the fallback message. -/
theorem c8_reasoning_silent_or_fallback_witness :
    (processCharacterTurnResult { text := " ", reasoning := "pondering", toolCalls := [] }
        sampleChar sampleChat [sampleChat] sampleSupply).messages = [] ∧
    (processCharacterTurnResult { text := " ", reasoning := "", toolCalls := [] }
        sampleChar sampleChat [sampleChat] sampleSupply).messages =
      [{ id := sampleSupply 0, sender := sampleChar.name
         text := "*" ++ sampleChar.name ++ " is thinking...*"
         type := .character, charId := some sampleChar.id }] :=
  ⟨(c8_reasoning_silent_or_fallback sampleChar sampleChat [sampleChat] sampleSupply
      { text := " ", reasoning := "pondering", toolCalls := [] } rfl (by decide)).1 (by decide),
    (c8_reasoning_silent_or_fallback sampleChar sampleChat [sampleChat] sampleSupply
      { text := " ", reasoning := "", toolCalls := [] } rfl (by decide)).2 rfl⟩

/-- C3: summarization returns its input unchanged when the compression
candidate set has fewer than 5 entries or when the generation call fails;
otherwise it returns exactly one new summary message, followed by the
last 5 substantive messages verbatim, followed by all loading messages,
so the loading count is preserved, no prior summary entry survives as an
entry, and prior summaries are folded into the prompt's source text. -/
theorem c3_summarize_structure (messages : List ChatMessage) (genOutcome : Option String)
    (newId : String) :
    ((messagesToSummarizeOf messages).length < 5 →
      summarizeOldMessages messages genOutcome newId = messages) ∧
    (genOutcome = none → summarizeOldMessages messages genOutcome newId = messages) ∧
    (∀ text, genOutcome = some text → 5 ≤ (messagesToSummarizeOf messages).length →
      summarizeOldMessages messages genOutcome newId =
        { id := newId, type := .summary, sender := "Summary", text := jsTrim text } ::
          (messagesToKeepOf messages ++ messages.filter (fun m => m.type = .loading)) ∧
      (messagesToKeepOf messages).length = 5 ∧
      (∀ m ∈ messagesToKeepOf messages, m ∈ messages ∧ m.type ≠ .summary ∧ m.type ≠ .loading) ∧
      (∀ m ∈ summarizeOldMessages messages genOutcome newId, m.type = .summary →
        m = { id := newId, type := .summary, sender := "Summary", text := jsTrim text })) ∧
    ((summarizeOldMessages messages genOutcome newId).filter
        (fun m => m.type = .loading)).length =
      (messages.filter (fun m => m.type = .loading)).length ∧
    (0 < (messages.filter (fun m => m.type = .summary)).length →
      ∃ a b, summarizePrompt messages =
        a ++ joinSep "\n\n" ((messages.filter (fun m => m.type = .summary)).map (fun s => s.text))
          ++ b) := by
  have hkeep_mem : ∀ m ∈ messagesToKeepOf messages,
      m ∈ messages ∧ m.type ≠ .summary ∧ m.type ≠ .loading := by
    intro m hm
    have hma : m ∈ actualMessagesOf messages := List.drop_subset _ _ hm
    have := List.mem_filter.mp hma
    refine ⟨this.1, ?_, ?_⟩
    · have h2 := of_decide_eq_true this.2
      exact h2.2
    · have h2 := of_decide_eq_true this.2
      exact h2.1
  have hsucc : ∀ text, genOutcome = some text → 5 ≤ (messagesToSummarizeOf messages).length →
      summarizeOldMessages messages genOutcome newId =
        { id := newId, type := .summary, sender := "Summary", text := jsTrim text } ::
          (messagesToKeepOf messages ++ messages.filter (fun m => m.type = .loading)) := by
    intro text hgen hlen
    subst hgen
    simp only [summarizeOldMessages]
    rw [if_neg (by omega)]
  refine ⟨?_, ?_, ?_, ?_, ?_⟩
  · intro h
    simp only [summarizeOldMessages]
    rw [if_pos h]
  · intro h
    subst h
    simp only [summarizeOldMessages]
    split <;> rfl
  · intro text hgen hlen
    have hres := hsucc text hgen hlen
    have hkeeplen : (messagesToKeepOf messages).length = 5 := by
      have h1 : (messagesToSummarizeOf messages).length =
          (actualMessagesOf messages).length - 5 := by
        simp [messagesToSummarizeOf, RECENT_MESSAGES_TO_KEEP, List.length_take]
      have h2 : 10 ≤ (actualMessagesOf messages).length := by omega
      simp [messagesToKeepOf, RECENT_MESSAGES_TO_KEEP, List.length_drop]
      omega
    refine ⟨hres, hkeeplen, hkeep_mem, ?_⟩
    intro m hm hmtype
    rw [hres] at hm
    rcases List.mem_cons.mp hm with hm | hm
    · exact hm
    · rcases List.mem_append.mp hm with hm | hm
      · exact absurd hmtype (hkeep_mem m hm).2.1
      · have := List.mem_filter.mp hm
        have h2 := of_decide_eq_true this.2
        rw [h2] at hmtype
        exact absurd hmtype (by decide)
  · by_cases hlt : (messagesToSummarizeOf messages).length < 5
    · simp only [summarizeOldMessages]
      rw [if_pos hlt]
    · cases hgen : genOutcome with
      | none =>
        simp only [summarizeOldMessages]
        split <;> rfl
      | some text =>
        have hres := hsucc text hgen (by omega)
        rw [hgen] at hres
        rw [hres]
        have hkeepfilter :
            (messagesToKeepOf messages).filter (fun m => m.type = .loading) = [] := by
          rw [List.filter_eq_nil_iff]
          intro m hm
          have := (hkeep_mem m hm).2.2
          simpa using this
        have hloadfilter :
            (messages.filter (fun m => m.type = .loading)).filter
              (fun m => m.type = .loading) =
            messages.filter (fun m => m.type = .loading) := by
          rw [List.filter_eq_self]
          intro m hm
          exact (List.mem_filter.mp hm).2
        simp only [List.filter_cons, List.filter_append, hkeepfilter, hloadfilter]
        simp
  · intro hsum
    refine ⟨("You are summarizing a roleplay conversation to preserve context while reducing length.\n" ++
      "Create a concise summary that captures:\n" ++
      "- Key events and actions that occurred\n" ++
      "- Important character interactions and relationships established\n" ++
      "- Any significant plot developments or decisions made\n" ++
      "- Notable emotional beats or character moments\n\n" ++
      "Keep the summary factual and in past tense. Focus on information that would be relevant for continuing the story.\n" ++
      "Maximum 3-4 paragraphs.\n\n") ++ "Previous summary:\n",
      "\n\nContinued conversation:\n" ++
        joinSep "\n" ((messagesToSummarizeOf messages).map summarizeLine), ?_⟩
    simp only [summarizePrompt]
    rw [if_pos hsum]
    simp only [String.append_assoc]

/-- Witness for C3 on a concrete twelve-entry history whose candidate set
has exactly 5 entries. -/
theorem c3_summarize_structure_witness :
    summarizeOldMessages sampleHistory (some "the story so far") "new" =
      { id := "new", type := .summary, sender := "Summary"
        text := jsTrim "the story so far" } ::
        (messagesToKeepOf sampleHistory ++
          sampleHistory.filter (fun m => m.type = .loading)) ∧
    (messagesToKeepOf sampleHistory).length = 5 :=
  ⟨((c3_summarize_structure sampleHistory (some "the story so far") "new").2.2.1
      "the story so far" rfl (by decide)).1,
    ((c3_summarize_structure sampleHistory (some "the story so far") "new").2.2.1
      "the story so far" rfl (by decide)).2.1⟩

/-- Appending to a non-empty string yields a non-empty string. -/
theorem append_ne_empty_left (a b : String) (h : a ≠ "") : a ++ b ≠ "" := by
  intro hab
  apply h
  apply String.ext
  have hd := String.data_append a b
  rw [hab] at hd
  have h2 : a.data ++ b.data = [] := hd.symm
  have h3 := List.append_eq_nil.mp h2
  simp [h3.1]

/-- A join whose first part is non-empty is non-empty. -/
theorem joinSep_ne_empty (sep : String) (p : String) (rest : List String) (hp : p ≠ "") :
    joinSep sep (p :: rest) ≠ "" := by
  cases rest with
  | nil => simpa [joinSep] using hp
  | cons q r =>
    show p ++ sep ++ joinSep sep (q :: r) ≠ ""
    exact append_ne_empty_left _ _ (append_ne_empty_left _ _ hp)

/-- C9: `buildCatchupBlock` never returns the empty string, and when the
catch-up content is empty (no summaries in the window and nothing since
the character's last turn survives filtering) with no nudge supplied, the
fixed take-initiative directive is returned verbatim. -/
theorem c9_catchup_never_empty (messages : List ChatMessage) (characterName : String)
    (directorNudge : Option String) :
    buildCatchupBlock messages characterName directorNudge ≠ "" ∧
    (directorNudge = none →
      summaryPartsOf messages = [] →
      (catchupMessagesOf messages characterName).filter
        (fun m => m.type ≠ .loading ∧ m.type ≠ .narration) = [] →
      buildCatchupBlock messages characterName directorNudge =
        "No one has said anything recently. Take the initiative.") := by
  have hbase : catchupWithNudge messages characterName directorNudge ≠ "" := by
    unfold catchupWithNudge
    cases directorNudge with
    | some nudge =>
      dsimp only
      have hnt : "(Director\x27s Nudge: " ++ nudge ++
          ". Incorporate this into your character\x27s thoughts and next action.)" ≠ "" :=
        append_ne_empty_left _ _
          (append_ne_empty_left "(Director\x27s Nudge: " nudge (by decide))
      by_cases hdef : catchupWithDefault messages characterName (some nudge) ≠ ""
      · rw [if_pos hdef]
        exact append_ne_empty_left _ _ (append_ne_empty_left _ _ hnt)
      · rw [if_neg hdef]
        exact hnt
    | none =>
      unfold catchupWithDefault
      by_cases hb : catchupBlockBase messages characterName = ""
      · rw [if_pos ⟨hb, rfl⟩]
        decide
      · rw [if_neg (by simp [hb])]
        exact hb
  constructor
  · unfold buildCatchupBlock
    cases hlast :
        ((catchupMessagesOf messages characterName).filter
          (fun m => m.type ≠ .loading ∧ m.type ≠ .narration ∧ m.type ≠ .director)).getLast? with
    | none => exact hbase
    | some lastMessage =>
      dsimp only
      by_cases huser : lastMessage.type = .user
      · rw [if_pos huser]
        exact append_ne_empty_left _ _
          (append_ne_empty_left _ _ (append_ne_empty_left _ _ hbase))
      · rw [if_neg huser]
        exact hbase
  · intro hnudge hsum hfilter
    subst hnudge
    have hbase0 : catchupBlockBase messages characterName = "" := by
      unfold catchupBlockBase filteredCatchupOf
      rw [hfilter]
      simp [hsum, joinSep, jsTrim]
    have hdef : catchupWithDefault messages characterName none =
        "No one has said anything recently. Take the initiative." := by
      unfold catchupWithDefault
      rw [if_pos ⟨hbase0, rfl⟩]
    have hrel : (catchupMessagesOf messages characterName).filter
        (fun m => m.type ≠ .loading ∧ m.type ≠ .narration ∧ m.type ≠ .director) = [] := by
      rw [List.filter_eq_nil_iff]
      intro m hm
      have h1 := List.filter_eq_nil_iff.mp hfilter m hm
      intro h2
      apply h1
      have h3 := of_decide_eq_true h2
      simp only [decide_eq_true_eq]
      exact ⟨h3.1, h3.2.1⟩
    unfold buildCatchupBlock
    rw [hrel]
    simp only [List.getLast?_nil]
    unfold catchupWithNudge
    exact hdef

/-- Witness for C9: an empty history with no nudge yields exactly the
take-initiative directive. -/
theorem c9_catchup_never_empty_witness :
    buildCatchupBlock [] "Alice" none ≠ "" ∧
    buildCatchupBlock [] "Alice" none =
      "No one has said anything recently. Take the initiative." :=
  ⟨(c9_catchup_never_empty [] "Alice" none).1,
    (c9_catchup_never_empty [] "Alice" none).2 rfl (by decide) (by decide)⟩

/-- Reduction of one `moveToLocation` tool-call step with a non-empty
destination to a case split on name resolution. -/
theorem processToolCall_move (character : Character) (groupChat : GroupChat)
    (allGroupChats : List GroupChat) (supply : Nat → String) (acc : TurnAcc)
    (destName : String) (hne : destName ≠ "") :
    processToolCall character groupChat allGroupChats supply acc
      { toolName := "moveToLocation", input := some { locationName := some destName } } =
    match allGroupChats.find? (fun gc => gc.name = destName) with
    | some destChat =>
      if destChat.id ≠ character.groupChatId then
        { acc with
          patch := { acc.patch with groupChatId := some destChat.id }
          gcUpdates :=
            mapSet
              (mapSet acc.gcUpdates groupChat.id
                { characterIds :=
                    some (groupChat.characterIds.filter (fun x => x ≠ character.id)) })
              destChat.id
              { characterIds :=
                  some (destChat.characterIds.filter (fun x => x ≠ character.id) ++
                    [character.id]) }
          messages := acc.messages ++
            [{ id := supply acc.nextId
               sender := "Narrator"
               text := "*" ++ character.name ++ " moved to " ++ destChat.name ++ ".*"
               type := .narration }]
          nextId := acc.nextId + 1 }
      else
        { acc with
          messages := acc.messages ++
            [{ id := supply acc.nextId
               sender := "Narrator"
               text := "*" ++ character.name ++ " is already at " ++ destName ++ ".*"
               type := .narration }]
          nextId := acc.nextId + 1 }
    | none =>
      { acc with
        messages := acc.messages ++
          [{ id := supply acc.nextId
             sender := "Narrator"
             text := "*" ++ character.name ++ " tried to move to unknown location: " ++
               destName ++ ".*"
             type := .narration }]
        nextId := acc.nextId + 1 } := by
  dsimp only [processToolCall]
  rw [if_neg (show ¬("moveToLocation" : String) = "makeNote" by decide)]
  rw [if_pos (show ("moveToLocation" : String) = "moveToLocation" from rfl)]
  rw [if_neg hne]

/-- Counterexample to C4 as stated: a `moveToLocation` invocation whose
destination string is empty resolves to no existing location, yet the code
skips it silently (JS falsiness), producing zero narrator messages instead
of exactly one. -/
theorem c4_counterexample_empty_destination :
    ([sampleChat, sampleChat2].find? (fun gc => gc.name = "") = none) ∧
    (processCharacterTurnResult
        { text := "", reasoning := "r"
          toolCalls := [{ toolName := "moveToLocation"
                          input := some { locationName := some "" } }] }
        sampleChar sampleChat [sampleChat, sampleChat2] sampleSupply).groupChatUpdates = [] ∧
    ((processCharacterTurnResult
        { text := "", reasoning := "r"
          toolCalls := [{ toolName := "moveToLocation"
                          input := some { locationName := some "" } }] }
        sampleChar sampleChat [sampleChat, sampleChat2] sampleSupply).messages.filter
      (fun m => m.type = .narration)).length = 0 := by
  refine ⟨by decide, by decide, by decide⟩

/-- C4 (amended to non-empty destination strings; an empty destination is
skipped like a missing payload): a single `moveToLocation` invocation
resolving to the current location stages no membership mutations and one
narrator message; resolving to no location stages no mutations and one
narrator message; resolving to a different location stages exactly two
deduplicated membership mutations plus the `groupChatId` reassignment and
one narrator message. Resolution is a total function and never throws. -/
theorem c4_move_tool_resolution (character : Character) (groupChat : GroupChat)
    (allGroupChats : List GroupChat) (supply : Nat → String)
    (destName text reasoning : String) (hne : destName ≠ "")
    (hcur : character.groupChatId = groupChat.id) :
    (∀ d, allGroupChats.find? (fun gc => gc.name = destName) = some d → d.id = groupChat.id →
      (processCharacterTurnResult
          { text := text, reasoning := reasoning
            toolCalls := [{ toolName := "moveToLocation"
                            input := some { locationName := some destName } }] }
          character groupChat allGroupChats supply).groupChatUpdates = [] ∧
      (processCharacterTurnResult
          { text := text, reasoning := reasoning
            toolCalls := [{ toolName := "moveToLocation"
                            input := some { locationName := some destName } }] }
          character groupChat allGroupChats supply).characterUpdates = none ∧
      ((processCharacterTurnResult
          { text := text, reasoning := reasoning
            toolCalls := [{ toolName := "moveToLocation"
                            input := some { locationName := some destName } }] }
          character groupChat allGroupChats supply).messages.filter
        (fun m => m.type = .narration)).length = 1) ∧
    (allGroupChats.find? (fun gc => gc.name = destName) = none →
      (processCharacterTurnResult
          { text := text, reasoning := reasoning
            toolCalls := [{ toolName := "moveToLocation"
                            input := some { locationName := some destName } }] }
          character groupChat allGroupChats supply).groupChatUpdates = [] ∧
      (processCharacterTurnResult
          { text := text, reasoning := reasoning
            toolCalls := [{ toolName := "moveToLocation"
                            input := some { locationName := some destName } }] }
          character groupChat allGroupChats supply).characterUpdates = none ∧
      ((processCharacterTurnResult
          { text := text, reasoning := reasoning
            toolCalls := [{ toolName := "moveToLocation"
                            input := some { locationName := some destName } }] }
          character groupChat allGroupChats supply).messages.filter
        (fun m => m.type = .narration)).length = 1) ∧
    (∀ d, allGroupChats.find? (fun gc => gc.name = destName) = some d → d.id ≠ groupChat.id →
      (processCharacterTurnResult
          { text := text, reasoning := reasoning
            toolCalls := [{ toolName := "moveToLocation"
                            input := some { locationName := some destName } }] }
          character groupChat allGroupChats supply).groupChatUpdates =
        [(groupChat.id,
          { characterIds := some (groupChat.characterIds.filter (fun x => x ≠ character.id)) }),
         (d.id,
          { characterIds :=
              some (d.characterIds.filter (fun x => x ≠ character.id) ++ [character.id]) })] ∧
      (processCharacterTurnResult
          { text := text, reasoning := reasoning
            toolCalls := [{ toolName := "moveToLocation"
                            input := some { locationName := some destName } }] }
          character groupChat allGroupChats supply).characterUpdates =
        some { groupChatId := some d.id } ∧
      character.id ∉ groupChat.characterIds.filter (fun x => x ≠ character.id) ∧
      (d.characterIds.filter (fun x => x ≠ character.id) ++ [character.id]).count
        character.id = 1 ∧
      ((processCharacterTurnResult
          { text := text, reasoning := reasoning
            toolCalls := [{ toolName := "moveToLocation"
                            input := some { locationName := some destName } }] }
          character groupChat allGroupChats supply).messages.filter
        (fun m => m.type = .narration)).length = 1) := by
  have hstep := processToolCall_move character groupChat allGroupChats supply
    { messages := [], patch := {}, gcUpdates := [], hasMadeNote := false
      strangerLabel := none, nextId := 0 } destName hne
  refine ⟨?_, ?_, ?_⟩
  · intro d hfind hid
    rw [hfind] at hstep
    dsimp only at hstep
    rw [if_neg (show ¬ d.id ≠ character.groupChatId by rw [hcur]; simpa using hid)] at hstep
    by_cases htext : jsTrim text = "" <;>
      simp [processCharacterTurnResult, hstep, htext]
  · intro hfind
    rw [hfind] at hstep
    dsimp only at hstep
    by_cases htext : jsTrim text = "" <;>
      simp [processCharacterTurnResult, hstep, htext]
  · intro d hfind hid
    rw [hfind] at hstep
    dsimp only at hstep
    have hid' : d.id ≠ character.groupChatId := by rw [hcur]; exact hid
    rw [if_pos hid'] at hstep
    have hgd : ¬ (groupChat.id = d.id) := fun h => hid h.symm
    refine ⟨?_, ?_, ?_, ?_, ?_⟩
    · by_cases htext : jsTrim text = "" <;>
        simp [processCharacterTurnResult, hstep, htext, mapSet, hgd]
    · by_cases htext : jsTrim text = "" <;>
        simp [processCharacterTurnResult, hstep, htext]
    · simp
    · rw [List.count_append]
      have h0 : (d.characterIds.filter (fun x => x ≠ character.id)).count character.id = 0 := by
        rw [List.count_eq_zero]
        simp
      rw [h0]
      simp
    · by_cases htext : jsTrim text = "" <;>
        simp [processCharacterTurnResult, hstep, htext]

/-- Witness for C4 (amended) on a concrete two-location world, covering
all three resolution outcomes. -/
theorem c4_move_tool_resolution_witness :
    (processCharacterTurnResult
        { text := "", reasoning := "r"
          toolCalls := [{ toolName := "moveToLocation"
                          input := some { locationName := some "Home" } }] }
        sampleChar sampleChat [sampleChat, sampleChat2] sampleSupply).groupChatUpdates = [] ∧
    (processCharacterTurnResult
        { text := "", reasoning := "r"
          toolCalls := [{ toolName := "moveToLocation"
                          input := some { locationName := some "Moon" } }] }
        sampleChar sampleChat [sampleChat, sampleChat2] sampleSupply).groupChatUpdates = [] ∧
    (processCharacterTurnResult
        { text := "", reasoning := "r"
          toolCalls := [{ toolName := "moveToLocation"
                          input := some { locationName := some "Park" } }] }
        sampleChar sampleChat [sampleChat, sampleChat2] sampleSupply).groupChatUpdates =
      [(sampleChat.id,
        { characterIds := some (sampleChat.characterIds.filter (fun x => x ≠ sampleChar.id)) }),
       (sampleChat2.id,
        { characterIds :=
            some (sampleChat2.characterIds.filter (fun x => x ≠ sampleChar.id) ++
              [sampleChar.id]) })] :=
  ⟨((c4_move_tool_resolution sampleChar sampleChat [sampleChat, sampleChat2] sampleSupply
      "Home" "" "r" (by decide) rfl).1 sampleChat (by decide) rfl).1,
    ((c4_move_tool_resolution sampleChar sampleChat [sampleChat, sampleChat2] sampleSupply
      "Moon" "" "r" (by decide) rfl).2.1 (by decide)).1,
    ((c4_move_tool_resolution sampleChar sampleChat [sampleChat, sampleChat2] sampleSupply
      "Park" "" "r" (by decide) rfl).2.2 sampleChat2 (by decide) (by decide)).1⟩

/-- C6: retrying a character-authored message at index `i` of a quiescent
history (no stale loading placeholder for the acting character in the
retained prefix) yields exactly the original prefix `[0, i)` followed by
the re-run turn's messages; when the re-run turn fails, those messages are
the single synthesized error message. -/
theorem c6_retry_truncation (chatMessages : List ChatMessage) (messageId : String)
    (characters : List Character) (chat : GroupChat) (allGroupChats : List GroupChat)
    (outcome : Except String (GenResult × Option TokenUsage)) (supply : Nat → String)
    (loadingId : String) (i : Nat) (m : ChatMessage) (ch : Character)
    (hfind : chatMessages.findIdx? (fun x => x.id = messageId) = some i)
    (hget : chatMessages[i]? = some m)
    (htype : m.type = .character) (hcharId : m.charId = some ch.id) (hchne : ch.id ≠ "")
    (hchar : characters.find? (fun c => c.id = ch.id) = some ch)
    (hquiet : ∀ x ∈ chatMessages.take i, ¬(x.type = .loading ∧ x.charId = some ch.id)) :
    handleRetryMessage chatMessages messageId characters chat allGroupChats outcome supply
        loadingId =
      chatMessages.take i ++
        (executeCharacterTurn ch chat allGroupChats outcome supply).messages ∧
    (∀ e, outcome = .error e →
      handleRetryMessage chatMessages messageId characters chat allGroupChats outcome supply
          loadingId =
        chatMessages.take i ++
          [{ id := supply 0, sender := ch.name, text := "(An error occurred: " ++ e ++ ")"
             type := .character, charId := some ch.id }]) := by
  have hmain : handleRetryMessage chatMessages messageId characters chat allGroupChats outcome
      supply loadingId =
      chatMessages.take i ++
        (executeCharacterTurn ch chat allGroupChats outcome supply).messages := by
    unfold handleRetryMessage
    rw [hfind]
    dsimp only
    rw [hget]
    dsimp only
    rw [if_neg (by simp [htype])]
    rw [hcharId]
    dsimp only
    rw [if_neg (by simpa using hchne)]
    rw [hchar]
    dsimp only
    have hfilter :
        (chatMessages.take i ++
          [({ id := loadingId, sender := ch.name, text := "", type := .loading, charId := some ch.id } : ChatMessage)]).filter
          (fun x => x.type ≠ .loading ∨ x.charId ≠ some ch.id) =
        chatMessages.take i := by
      rw [List.filter_append]
      have h1 : (chatMessages.take i).filter
          (fun x => x.type ≠ .loading ∨ x.charId ≠ some ch.id) = chatMessages.take i := by
        rw [List.filter_eq_self]
        intro a ha
        have := hquiet a ha
        simp only [decide_eq_true_eq]
        tauto
      have h2 : ([({ id := loadingId, sender := ch.name, text := "", type := .loading, charId := some ch.id } : ChatMessage)]).filter
          (fun x => x.type ≠ .loading ∨ x.charId ≠ some ch.id) = [] := by
        simp
      rw [h1, h2, List.append_nil]
    rw [hfilter]
  refine ⟨hmain, fun e he => ?_⟩
  rw [hmain, he]
  rfl

/-- Witness for C6: retrying the second message of a concrete two-message
history with a failing turn yields the prefix plus the error message. -/
theorem c6_retry_truncation_witness :
    handleRetryMessage
        [{ id := "m0", type := .user, text := "hi", sender := "u" },
         { id := "m1", type := .character, text := "old", sender := "Alice"
           charId := some "c1" }]
        "m1" [sampleChar] sampleChat [sampleChat] (.error "boom") sampleSupply "ld" =
      [{ id := "m0", type := .user, text := "hi", sender := "u" }] ++
        [{ id := sampleSupply 0, sender := sampleChar.name
           text := "(An error occurred: " ++ "boom" ++ ")"
           type := .character, charId := some sampleChar.id }] :=
  (c6_retry_truncation
      [{ id := "m0", type := .user, text := "hi", sender := "u" },
       { id := "m1", type := .character, text := "old", sender := "Alice"
         charId := some "c1" }]
      "m1" [sampleChar] sampleChat [sampleChat] (.error "boom") sampleSupply "ld" 1
      { id := "m1", type := .character, text := "old", sender := "Alice", charId := some "c1" }
      sampleChar (by decide) (by decide) rfl rfl (by decide) (by decide)
      (by decide)).2 "boom" rfl

/-- The character list after one `deleteCharacter` whose target exists:
known-character references scrubbed, then the target dropped. -/
theorem deleteCharacter_characters_of_found (w : World) (cid : String)
    (hfound : ∃ c ∈ w.characters, c.id = cid) :
    (deleteCharacter w cid).characters =
      (w.characters.map fun c =>
        { c with knownCharacterIds := c.knownCharacterIds.filter (fun k => k ≠ cid) }).filter
        (fun c => c.id ≠ cid) := by
  obtain ⟨c, hc, hcid⟩ := hfound
  have : (w.characters.find? (fun c => c.id = cid)).isSome := by
    rw [List.find?_isSome]
    exact ⟨c, hc, by simpa using hcid⟩
  unfold deleteCharacter
  cases hfind : w.characters.find? (fun c => c.id = cid) with
  | none => rw [hfind] at this; simp at this
  | some ch => rfl

/-- Folding `deleteCharacter` over a duplicate-free list of existing ids
removes exactly those characters and scrubs exactly those ids from every
known-character list. -/
theorem foldl_deleteCharacter_characters (ids : List String) :
    ∀ w : World, (w.characters.map (fun c => c.id)).Nodup → ids.Nodup →
    (∀ i ∈ ids, ∃ c ∈ w.characters, c.id = i) →
    (ids.foldl (fun w i => deleteCharacter w i) w).characters =
      (w.characters.filter (fun c => c.id ∉ ids)).map
        (fun c => { c with knownCharacterIds := c.knownCharacterIds.filter (fun k => k ∉ ids) }) := by
  induction ids with
  | nil =>
    intro w _ _ _
    simp
  | cons i rest ih =>
    intro w hnd hids hexists
    have hstep := deleteCharacter_characters_of_found w i (hexists i (by simp))
    have hchars1 : (deleteCharacter w i).characters =
        (w.characters.map fun c =>
          { c with knownCharacterIds := c.knownCharacterIds.filter (fun k => k ≠ i) }).filter
          (fun c => c.id ≠ i) := hstep
    rw [List.foldl_cons]
    rw [ih (deleteCharacter w i) ?hnd1 (List.nodup_cons.mp hids).2 ?hex1]
    case hnd1 =>
      rw [hchars1]
      have hmapids : ((w.characters.map fun c =>
          { c with knownCharacterIds := c.knownCharacterIds.filter (fun k => k ≠ i) }).map
          (fun c => c.id)) = w.characters.map (fun c => c.id) := by
        rw [List.map_map]
        rfl
      have hsub : ((w.characters.map fun c =>
          { c with knownCharacterIds := c.knownCharacterIds.filter (fun k => k ≠ i) }).filter
          (fun c => c.id ≠ i)).map (fun c => c.id) |>.Sublist
            ((w.characters.map fun c =>
              { c with knownCharacterIds := c.knownCharacterIds.filter (fun k => k ≠ i) }).map
              (fun c => c.id)) :=
        (List.filter_sublist _).map _
      rw [hmapids] at hsub
      exact hnd.sublist hsub
    case hex1 =>
      intro j hj
      obtain ⟨c, hc, hcid⟩ := hexists j (by simp [hj])
      rw [hchars1]
      refine ⟨{ c with knownCharacterIds := c.knownCharacterIds.filter (fun k => k ≠ i) }, ?_, hcid⟩
      rw [List.mem_filter]
      constructor
      · exact List.mem_map_of_mem _ hc
      · have hji : j ≠ i := by
          intro h
          exact (List.nodup_cons.mp hids).1 (h ▸ hj)
        simpa [hcid] using hji
    rw [hchars1]
    rw [List.filter_filter]
    rw [List.filter_map]
    rw [List.map_map]
    have hfeq : (w.characters.filter
        ((fun c => decide (c.id ∉ rest) && decide (c.id ≠ i)) ∘ fun c =>
          { c with knownCharacterIds := c.knownCharacterIds.filter (fun k => k ≠ i) })) =
        w.characters.filter (fun c => c.id ∉ i :: rest) := by
      apply List.filter_congr
      intro c _
      show (decide (c.id ∉ rest) && decide (c.id ≠ i)) = decide (c.id ∉ i :: rest)
      by_cases h1 : c.id = i <;> by_cases h2 : c.id ∈ rest <;> simp [h1, h2]
    rw [hfeq]
    apply List.map_congr_left
    intro c _
    show { c with knownCharacterIds :=
        (c.knownCharacterIds.filter (fun k => k ≠ i)).filter (fun k => k ∉ rest) } =
      { c with knownCharacterIds := c.knownCharacterIds.filter (fun k => k ∉ i :: rest) }
    rw [List.filter_filter]
    have : (c.knownCharacterIds.filter fun k => decide (k ∉ rest) && decide (k ≠ i)) =
        c.knownCharacterIds.filter (fun k => k ∉ i :: rest) := by
      apply List.filter_congr
      intro k _
      by_cases h1 : k = i <;> by_cases h2 : k ∈ rest <;> simp [h1, h2]
    rw [this]

/-- C10: deleting a location deletes every character assigned to it — each
such character is removed from the character list and scrubbed from every
other character's `knownCharacterIds` — while characters assigned
elsewhere (or unassigned) remain (with only the dangling references
removed); the location itself is gone afterwards. -/
theorem c10_delete_location_cascade (w : World) (gid : String)
    (hnd : (w.characters.map (fun c => c.id)).Nodup) :
    (deleteGroupChat w gid).characters =
      (w.characters.filter (fun c => c.groupChatId ≠ gid)).map
        (fun c =>
          { c with knownCharacterIds :=
              c.knownCharacterIds.filter (fun k =>
                k ∉ (w.characters.filter (fun c => c.groupChatId = gid)).map
                  (fun c => c.id)) }) ∧
    (∀ g ∈ (deleteGroupChat w gid).groupChats, g.id ≠ gid) := by
  have htargets_ids_nodup :
      ((w.characters.filter (fun c => c.groupChatId = gid)).map (fun c => c.id)).Nodup := by
    have hsub : ((w.characters.filter (fun c => c.groupChatId = gid)).map
        (fun c => c.id)).Sublist (w.characters.map (fun c => c.id)) :=
      (List.filter_sublist _).map _
    exact hnd.sublist hsub
  have hexists : ∀ i ∈ (w.characters.filter (fun c => c.groupChatId = gid)).map
      (fun c => c.id), ∃ c ∈ w.characters, c.id = i := by
    intro i hi
    obtain ⟨t, ht, hti⟩ := List.mem_map.mp hi
    exact ⟨t, (List.mem_filter.mp ht).1, hti⟩
  have hfold := foldl_deleteCharacter_characters
    ((w.characters.filter (fun c => c.groupChatId = gid)).map (fun c => c.id)) w hnd
    htargets_ids_nodup hexists
  have hinj := List.inj_on_of_nodup_map hnd
  have hfold2 : ((w.characters.filter (fun c => c.groupChatId = gid)).foldl
      (fun w c => deleteCharacter w c.id) w).characters =
      (w.characters.filter (fun c =>
        c.id ∉ (w.characters.filter (fun c => c.groupChatId = gid)).map (fun c => c.id))).map
        (fun c =>
          { c with knownCharacterIds :=
              c.knownCharacterIds.filter (fun k =>
                k ∉ (w.characters.filter (fun c => c.groupChatId = gid)).map
                  (fun c => c.id)) }) := by
    rw [← List.foldl_map (fun c : Character => c.id) (fun w i => deleteCharacter w i)]
    exact hfold
  have hpred : (w.characters.filter (fun c =>
      c.id ∉ (w.characters.filter (fun c => c.groupChatId = gid)).map (fun c => c.id))) =
      w.characters.filter (fun c => c.groupChatId ≠ gid) := by
    apply List.filter_congr
    intro c hc
    simp only [decide_eq_decide]
    constructor
    · intro hnot
      intro hgc
      apply hnot
      exact List.mem_map_of_mem _ (List.mem_filter.mpr ⟨hc, by simpa using hgc⟩)
    · intro hne hmem
      obtain ⟨t, ht, hti⟩ := List.mem_map.mp hmem
      have ht' := List.mem_filter.mp ht
      have : t = c := hinj ht'.1 hc hti
      rw [this] at ht'
      exact hne (by simpa using ht'.2)
  constructor
  · simp only [deleteGroupChat]
    rw [hfold2, hpred]
  · intro g hg
    simp only [deleteGroupChat] at hg
    have := List.mem_filter.mp hg
    simpa using this.2

/-- Witness for C10 on a concrete two-location, two-character world:
deleting the first location removes its inhabitant and scrubs the
surviving character's reference to them. -/
theorem c10_delete_location_cascade_witness :
    (deleteGroupChat ⟨[sampleChar, sampleChar2], [sampleChat, sampleChat2]⟩ "g1").characters =
      ([sampleChar, sampleChar2].filter (fun c => c.groupChatId ≠ "g1")).map
        (fun c =>
          { c with knownCharacterIds :=
              c.knownCharacterIds.filter (fun k =>
                k ∉ ([sampleChar, sampleChar2].filter (fun c => c.groupChatId = "g1")).map
                  (fun c => c.id)) }) :=
  (c10_delete_location_cascade ⟨[sampleChar, sampleChar2], [sampleChat, sampleChat2]⟩
    "g1" (by decide)).1

/-- When every location passes the truthiness guard, the first import pass
is the stamped list and consumes one id per entry. -/
theorem importLocations_all_pass (supply : Nat → String) (locs : List WorldLocationData) :
    ∀ n : Nat, (∀ l ∈ locs, l.name ≠ "" ∧ l.description ≠ "") →
    importLocations supply locs n = (stampLocations supply n locs, n + locs.length) := by
  induction locs with
  | nil => intro n _; simp [importLocations, stampLocations]
  | cons loc rest ih =>
    intro n hall
    have hloc := hall loc (by simp)
    rw [importLocations, if_pos hloc]
    rw [ih (n + 1) (fun l hl => hall l (by simp [hl]))]
    simp [stampLocations]
    omega

/-- The stamped locations project to the source entries (with empty
exposition lines dropped). -/
theorem stampLocations_map_view (supply : Nat → String) (locs : List WorldLocationData) :
    ∀ n : Nat, (stampLocations supply n locs).map locView =
      locs.map (fun l => (l.name, l.description, l.exposition.filter (fun e => e ≠ ""))) := by
  induction locs with
  | nil => intro n; rfl
  | cons loc rest ih =>
    intro n
    simp only [stampLocations, List.map_cons, ih (n + 1)]
    rfl

/-- Every stamped location's id comes from the supply at or beyond the
starting index. -/
theorem stampLocations_mem_id (supply : Nat → String) (locs : List WorldLocationData) :
    ∀ n : Nat, ∀ g ∈ stampLocations supply n locs, ∃ k, n ≤ k ∧ g.id = supply k := by
  induction locs with
  | nil => intro n g hg; simp [stampLocations] at hg
  | cons loc rest ih =>
    intro n g hg
    rw [stampLocations] at hg
    rcases List.mem_cons.mp hg with hg | hg
    · exact ⟨n, le_refl n, by rw [hg]⟩
    · obtain ⟨k, hk, hkid⟩ := ih (n + 1) g hg
      exact ⟨k, by omega, hkid⟩

/-- With an injective supply, the stamped location ids are distinct. -/
theorem stampLocations_ids_nodup (supply : Nat → String) (hsupinj : Function.Injective supply)
    (locs : List WorldLocationData) :
    ∀ n : Nat, ((stampLocations supply n locs).map (fun g => g.id)).Nodup := by
  induction locs with
  | nil => intro n; simp [stampLocations]
  | cons loc rest ih =>
    intro n
    rw [stampLocations]
    rw [List.map_cons, List.nodup_cons]
    refine ⟨?_, ih (n + 1)⟩
    intro hmem
    obtain ⟨g, hg, hgid⟩ := List.mem_map.mp hmem
    obtain ⟨k, hk, hkid⟩ := stampLocations_mem_id supply rest (n + 1) g hg
    rw [hkid] at hgid
    have := hsupinj hgid
    omega

/-- An update of one location that preserves its frame preserves the frame
map of the whole list. -/
theorem updateFirstChat_frame (gcs : List GroupChat) (gid : String) (f : GroupChat → GroupChat)
    (hf : ∀ g, chatFrame (f g) = chatFrame g) :
    (updateFirstChat gcs gid f).map chatFrame = gcs.map chatFrame := by
  induction gcs with
  | nil => rfl
  | cons g rest ih =>
    rw [updateFirstChat]
    by_cases hg : g.id = gid
    · rw [if_pos hg]
      simp [hf g]
    · rw [if_neg hg]
      simp [ih]

/-- Lists with equal frame maps resolve a name search to the same id. -/
theorem find?_name_id_of_frame_eq (nm : String) :
    ∀ (gcs₁ gcs₂ : List GroupChat), gcs₁.map chatFrame = gcs₂.map chatFrame →
    (gcs₁.find? (fun g => g.name = nm)).map (fun g => g.id) =
      (gcs₂.find? (fun g => g.name = nm)).map (fun g => g.id) := by
  intro gcs₁
  induction gcs₁ with
  | nil =>
    intro gcs₂ h
    have : gcs₂ = [] := by
      cases gcs₂ with
      | nil => rfl
      | cons b t => simp at h
    rw [this]
  | cons a t₁ ih =>
    intro gcs₂ h
    cases gcs₂ with
    | nil => simp at h
    | cons b t₂ =>
      simp only [List.map_cons, List.cons.injEq] at h
      have hid : a.id = b.id := congrArg (fun p => p.1) h.1
      have hname : a.name = b.name := congrArg (fun p => p.2.1) h.1
      by_cases hn : a.name = nm
      · have hbn : b.name = nm := by rw [← hname]; exact hn
        rw [List.find?_cons_of_pos _ (by simpa using hn),
          List.find?_cons_of_pos _ (by simpa using hbn)]
        simpa using hid
      · have hbn : ¬b.name = nm := by rw [← hname]; exact hn
        rw [List.find?_cons_of_neg _ (by simpa using hn),
          List.find?_cons_of_neg _ (by simpa using hbn)]
        exact ih t₂ h.2

/-- Lists with equal frame maps have heads with the same id. -/
theorem head?_id_of_frame_eq (gcs₁ gcs₂ : List GroupChat)
    (h : gcs₁.map chatFrame = gcs₂.map chatFrame) :
    gcs₁.head?.map (fun g => g.id) = gcs₂.head?.map (fun g => g.id) := by
  cases gcs₁ with
  | nil =>
    cases gcs₂ with
    | nil => rfl
    | cons b t => simp at h
  | cons a t₁ =>
    cases gcs₂ with
    | nil => simp at h
    | cons b t₂ =>
      simp only [List.map_cons, List.cons.injEq] at h
      have hid : a.id = b.id := congrArg (fun p => p.1) h.1
      simpa using hid

/-- Location resolution depends only on the frame map. -/
theorem resolveLocId_congr (gcs₁ gcs₂ : List GroupChat) (nm : String)
    (h : gcs₁.map chatFrame = gcs₂.map chatFrame) :
    resolveLocId gcs₁ nm = resolveLocId gcs₂ nm := by
  have hfind := find?_name_id_of_frame_eq nm gcs₁ gcs₂ h
  have hhead := head?_id_of_frame_eq gcs₁ gcs₂ h
  unfold resolveLocId
  cases hf₁ : gcs₁.find? (fun g => g.name = nm) with
  | some g₁ =>
    cases hf₂ : gcs₂.find? (fun g => g.name = nm) with
    | some g₂ =>
      rw [hf₁, hf₂] at hfind
      simpa using hfind
    | none => rw [hf₁, hf₂] at hfind; simp at hfind
  | none =>
    cases hf₂ : gcs₂.find? (fun g => g.name = nm) with
    | some g₂ => rw [hf₁, hf₂] at hfind; simp at hfind
    | none => exact hhead

/-- The stamped characters depend on the location list only through its
frame map. -/
theorem stampCharacters_congr (supply : Nat → String) (gcs₁ gcs₂ : List GroupChat)
    (h : gcs₁.map chatFrame = gcs₂.map chatFrame) (data : List WorldCharacterData) :
    ∀ n : Nat, stampCharacters supply gcs₁ n data = stampCharacters supply gcs₂ n data := by
  induction data with
  | nil => intro n; rfl
  | cons c rest ih =>
    intro n
    rw [stampCharacters, stampCharacters, resolveLocId_congr gcs₁ gcs₂ c.location h, ih (n + 1)]

/-- The member push of the second import pass preserves location frames. -/
theorem importPush_frame (gcs : List GroupChat) (gid charId : String) :
    (updateFirstChat gcs gid
      (fun x => { x with characterIds := x.characterIds ++ [charId] })).map chatFrame =
    gcs.map chatFrame :=
  updateFirstChat_frame gcs gid _ (fun _ => rfl)

/-- When every character passes the truthiness guard, the second import
pass produces the stamped characters (resolved against the incoming
location list) and leaves the location frames untouched. -/
theorem importCharacters_all_pass (supply : Nat → String) (data : List WorldCharacterData) :
    ∀ (gcs : List GroupChat) (n : Nat), (∀ c ∈ data, c.name ≠ "" ∧ c.description ≠ "") →
    (importCharacters supply data gcs n).1 = stampCharacters supply gcs n data ∧
    (importCharacters supply data gcs n).2.1.map chatFrame = gcs.map chatFrame := by
  induction data with
  | nil => intro gcs n _; exact ⟨rfl, rfl⟩
  | cons c rest ih =>
    intro gcs n hall
    have hc := hall c (by simp)
    have hall' : ∀ x ∈ rest, x.name ≠ "" ∧ x.description ≠ "" :=
      fun x hx => hall x (by simp [hx])
    rw [importCharacters, if_pos hc]
    dsimp only
    cases hfind : gcs.find? (fun g => g.name = c.location) with
    | some g =>
      dsimp only
      have hres : resolveLocId gcs c.location = some g.id := by
        unfold resolveLocId
        rw [hfind]
      have hframe := importPush_frame gcs g.id (supply n)
      obtain ⟨ih1, ih2⟩ := ih (updateFirstChat gcs g.id
        (fun x => { x with characterIds := x.characterIds ++ [supply n] })) (n + 1) hall'
      constructor
      · rw [stampCharacters, hres]
        rw [ih1, stampCharacters_congr supply _ gcs hframe rest (n + 1)]
        rfl
      · rw [ih2, hframe]
    | none =>
      dsimp only
      cases hhead : gcs.head? with
      | some g =>
        dsimp only
        have hres : resolveLocId gcs c.location = some g.id := by
          unfold resolveLocId
          rw [hfind, hhead]
          rfl
        have hframe := importPush_frame gcs g.id (supply n)
        obtain ⟨ih1, ih2⟩ := ih (updateFirstChat gcs g.id
          (fun x => { x with characterIds := x.characterIds ++ [supply n] })) (n + 1) hall'
        constructor
        · rw [stampCharacters, hres]
          rw [ih1, stampCharacters_congr supply _ gcs hframe rest (n + 1)]
          rfl
        · rw [ih2, hframe]
      | none =>
        dsimp only
        have hres : resolveLocId gcs c.location = none := by
          unfold resolveLocId
          rw [hfind, hhead]
          rfl
        obtain ⟨ih1, ih2⟩ := ih gcs (n + 1) hall'
        constructor
        · rw [stampCharacters, hres]
          rw [ih1]
          rfl
        · rw [ih2]

/-- The stamped characters are in bijection with the source entries. -/
theorem stampCharacters_length (supply : Nat → String) (gcs : List GroupChat)
    (data : List WorldCharacterData) :
    ∀ n : Nat, (stampCharacters supply gcs n data).length = data.length := by
  induction data with
  | nil => intro n; rfl
  | cons c rest ih => intro n; rw [stampCharacters]; simp [ih (n + 1)]

/-- Positional characterization of a stamped character. -/
theorem stampCharacters_getElem (supply : Nat → String) (gcs : List GroupChat)
    (data : List WorldCharacterData) :
    ∀ (n k : Nat), (stampCharacters supply gcs n data)[k]? =
      data[k]?.map (fun c =>
        { id := supply (n + k), name := c.name, description := c.description
          pfp_base64 := c.pfp_base64
          groupChatId := (resolveLocId gcs c.location).getD ""
          notes := c.notes.filter (fun x => x ≠ "")
          quotes := c.quotes.filter (fun x => x ≠ "")
          knownCharacterIds := [] }) := by
  induction data with
  | nil => intro n k; simp [stampCharacters]
  | cons c rest ih =>
    intro n k
    rw [stampCharacters]
    cases k with
    | zero => simp
    | succ k' =>
      simp only [List.getElem?_cons_succ, ih (n + 1) k']
      have : n + 1 + k' = n + (k' + 1) := by omega
      rw [this]

/-- The stamped characters keep the source names in order. -/
theorem stampCharacters_names (supply : Nat → String) (gcs : List GroupChat)
    (data : List WorldCharacterData) :
    ∀ n : Nat, (stampCharacters supply gcs n data).map (fun c => c.name) =
      data.map (fun c => c.name) := by
  induction data with
  | nil => intro n; rfl
  | cons c rest ih => intro n; rw [stampCharacters]; simp [ih (n + 1)]

/-- Every stamped character's id comes from the supply at or beyond the
starting index. -/
theorem stampCharacters_mem_id (supply : Nat → String) (gcs : List GroupChat)
    (data : List WorldCharacterData) :
    ∀ n : Nat, ∀ c ∈ stampCharacters supply gcs n data, ∃ k, n ≤ k ∧ c.id = supply k := by
  induction data with
  | nil => intro n c hc; simp [stampCharacters] at hc
  | cons d rest ih =>
    intro n c hc
    rw [stampCharacters] at hc
    rcases List.mem_cons.mp hc with hc | hc
    · exact ⟨n, le_refl n, by rw [hc]⟩
    · obtain ⟨k, hk, hkid⟩ := ih (n + 1) c hc
      exact ⟨k, by omega, hkid⟩

/-- With an injective supply the stamped character ids are distinct. -/
theorem stampCharacters_ids_nodup (supply : Nat → String) (hsupinj : Function.Injective supply)
    (gcs : List GroupChat) (data : List WorldCharacterData) :
    ∀ n : Nat, ((stampCharacters supply gcs n data).map (fun c => c.id)).Nodup := by
  induction data with
  | nil => intro n; simp [stampCharacters]
  | cons c rest ih =>
    intro n
    rw [stampCharacters]
    rw [List.map_cons, List.nodup_cons]
    refine ⟨?_, ih (n + 1)⟩
    intro hmem
    obtain ⟨d, hd, hdid⟩ := List.mem_map.mp hmem
    obtain ⟨k, hk, hkid⟩ := stampCharacters_mem_id supply gcs rest (n + 1) d hd
    rw [hkid] at hdid
    have := hsupinj hdid
    omega

/-- The name-search over characters agrees with the search over their
(name, id) pairs. -/
theorem find?_nameIdPairs (chars : List Character) (nm : String) :
    (nameIdPairs chars).find? (fun p => p.1 = nm) =
      (chars.find? (fun c => c.name = nm)).map (fun c => (c.name, c.id)) := by
  induction chars with
  | nil => rfl
  | cons c rest ih =>
    by_cases hn : c.name = nm
    · rw [nameIdPairs, List.map_cons]
      rw [List.find?_cons_of_pos _ (by simpa using hn),
        List.find?_cons_of_pos _ (by simpa using hn)]
      rfl
    · rw [nameIdPairs, List.map_cons]
      rw [List.find?_cons_of_neg _ (by simpa using hn),
        List.find?_cons_of_neg _ (by simpa using hn)]
      exact ih

/-- `resolveKnownIds` only reads the (name, id) pairs. -/
theorem resolveKnownIds_eq_pairs (chars : List Character) (names : List String) :
    resolveKnownIds chars names = resolvePairs (nameIdPairs chars) names := by
  unfold resolveKnownIds resolvePairs
  apply List.filterMap_congr
  intro nm _
  rw [find?_nameIdPairs]
  cases chars.find? (fun c => c.name = nm) with
  | none => rfl
  | some c => rfl

/-- A search that fails on the first list continues on the second. -/
theorem find?_append_of_none {α : Type} (p : α → Bool) (l₁ l₂ : List α)
    (h : l₁.find? p = none) : (l₁ ++ l₂).find? p = l₂.find? p := by
  induction l₁ with
  | nil => rfl
  | cons a t ih =>
    have hpa : ¬p a = true := by
      intro hp
      rw [List.find?_cons_of_pos _ hp] at h
      exact Option.noConfusion h
    rw [List.find?_cons_of_neg _ hpa] at h
    rw [List.cons_append, List.find?_cons_of_neg _ hpa]
    exact ih h

/-- A first-by-name update skips a prefix that misses the name. -/
theorem updateFirstCharByName_append (pre chars : List Character) (nm : String)
    (f : Character → Character) (h : nm ∉ pre.map (fun c => c.name)) :
    updateFirstCharByName (pre ++ chars) nm f = pre ++ updateFirstCharByName chars nm f := by
  induction pre with
  | nil => rfl
  | cons a t ih =>
    have ha : ¬a.name = nm := by
      intro hn
      exact h (by simp [hn])
    rw [List.cons_append, updateFirstCharByName, if_neg ha]
    rw [ih (fun hm => h (by simp [hm]))]
    rfl

/-- Characterization of the third import pass over a duplicate-free-name
character list positionally matching the source entries: each character
gets its resolved known ids, computed against the stable (name, id)
pairs. -/
theorem linkKnown_aux (data : List WorldCharacterData) :
    ∀ (pre chars : List Character),
    data.map (fun c => c.name) = chars.map (fun c => c.name) →
    ((pre ++ chars).map (fun c => c.name)).Nodup →
    linkKnownCharacters data (pre ++ chars) =
      pre ++ List.zipWith
        (fun src c =>
          { c with knownCharacterIds :=
              resolvePairs (nameIdPairs (pre ++ chars)) src.knownCharacters }) data chars := by
  induction data with
  | nil =>
    intro pre chars hnames _
    have : chars = [] := by
      cases chars with
      | nil => rfl
      | cons c t => simp at hnames
    subst this
    simp [linkKnownCharacters]
  | cons src data' ih =>
    intro pre chars hnames hnodup
    cases chars with
    | nil => simp at hnames
    | cons c chars' =>
      simp only [List.map_cons, List.cons.injEq] at hnames
      obtain ⟨hsrcname, hnames'⟩ := hnames
      have hprenotin : src.name ∉ pre.map (fun x => x.name) := by
        intro hmem
        have : ((pre ++ c :: chars').map (fun x => x.name)).Nodup := hnodup
        rw [List.map_append] at this
        have hdisj := List.disjoint_of_nodup_append this
        exact hdisj hmem (by simp [← hsrcname])
      have hfindpre : pre.find? (fun x => x.name = src.name) = none := by
        rw [List.find?_eq_none]
        intro a ha
        simp only [decide_eq_true_eq]
        intro hn
        exact hprenotin (by rw [← hn]; exact List.mem_map_of_mem _ ha)
      have hfind : (pre ++ c :: chars').find? (fun x => x.name = src.name) = some c := by
        rw [find?_append_of_none _ _ _ hfindpre]
        exact List.find?_cons_of_pos _ (by simpa using hsrcname.symm)
      rw [linkKnownCharacters, List.foldl_cons, hfind]
      rw [updateFirstCharByName_append pre (c :: chars') src.name _ hprenotin]
      rw [updateFirstCharByName, if_pos hsrcname.symm]
      rw [resolveKnownIds_eq_pairs]
      have hassoc : pre ++ ({ c with knownCharacterIds := resolvePairs (nameIdPairs (pre ++ c :: chars')) src.knownCharacters } :: chars') =
          (pre ++ [{ c with knownCharacterIds := resolvePairs (nameIdPairs (pre ++ c :: chars')) src.knownCharacters }]) ++ chars' := by
        simp
      have hpairs : nameIdPairs ((pre ++ [{ c with knownCharacterIds := resolvePairs (nameIdPairs (pre ++ c :: chars')) src.knownCharacters }]) ++ chars') =
          nameIdPairs (pre ++ c :: chars') := by
        simp [nameIdPairs]
      have hnames2 : (((pre ++ [{ c with knownCharacterIds := resolvePairs (nameIdPairs (pre ++ c :: chars')) src.knownCharacters }]) ++ chars').map (fun x : Character => x.name)).Nodup := by
        have heq : ((pre ++ [{ c with knownCharacterIds := resolvePairs (nameIdPairs (pre ++ c :: chars')) src.knownCharacters }]) ++ chars').map (fun x : Character => x.name) = (pre ++ c :: chars').map (fun x : Character => x.name) := by
          simp
        rw [heq]
        exact hnodup
      show linkKnownCharacters data' (pre ++ { c with knownCharacterIds := resolvePairs (nameIdPairs (pre ++ c :: chars')) src.knownCharacters } :: chars') = _
      rw [hassoc]
      rw [ih _ chars' hnames' hnames2]
      rw [hpairs]
      simp [List.zipWith]

/-- Searching a list by a key that occurs exactly once returns the element
carrying it. -/
theorem find?_eq_self_of_nodup_map {α β : Type} [DecidableEq β] (key : α → β) (l : List α)
    (hnd : (l.map key).Nodup) (c : α) (hc : c ∈ l) :
    l.find? (fun x => key x = key c) = some c := by
  induction l with
  | nil => simp at hc
  | cons a t ih =>
    rw [List.map_cons, List.nodup_cons] at hnd
    rcases List.mem_cons.mp hc with hc | hc
    · subst hc
      exact List.find?_cons_of_pos _ (by simp)
    · have hne : ¬key a = key c := by
        intro h
        exact hnd.1 (h ▸ List.mem_map_of_mem key hc)
      rw [List.find?_cons_of_neg _ (by simpa using hne)]
      exact ih hnd.2 hc

/-- A positional combination with a per-position update that fixes a
projection fixes the projection of the whole list. -/
theorem zipWith_map_proj {α : Type} (f : WorldCharacterData → Character → Character)
    (proj : Character → α) (hf : ∀ s c, proj (f s c) = proj c) :
    ∀ (data : List WorldCharacterData) (chars : List Character),
      data.length = chars.length →
      (List.zipWith f data chars).map proj = chars.map proj := by
  intro data
  induction data with
  | nil =>
    intro chars hlen
    have : chars = [] := by
      cases chars with
      | nil => rfl
      | cons c t => simp at hlen
    subst this
    rfl
  | cons s rest ih =>
    intro chars hlen
    cases chars with
    | nil => simp at hlen
    | cons c t =>
      simp only [List.zipWith_cons_cons, List.map_cons, hf s c]
      rw [ih t (by simpa using hlen)]

/-- Positional lookup in a `zipWith`. -/
theorem zipWith_getElem? {α β γ : Type} (f : α → β → γ) :
    ∀ (l₁ : List α) (l₂ : List β) (k : Nat),
      (List.zipWith f l₁ l₂)[k]? =
        match l₁[k]?, l₂[k]? with
        | some a, some b => some (f a b)
        | _, _ => none := by
  intro l₁
  induction l₁ with
  | nil => intro l₂ k; simp
  | cons a t₁ ih =>
    intro l₂ k
    cases l₂ with
    | nil => cases k <;> simp
    | cons b t₂ =>
      cases k with
      | zero => simp
      | succ k' => simpa using ih t₂ k'

/-- An id search projects to the same name on lists with equal (name, id)
pairs. -/
theorem find?_id_name_of_pairs_eq (i : String) :
    ∀ (l₁ l₂ : List Character), nameIdPairs l₁ = nameIdPairs l₂ →
    (l₁.find? (fun c => c.id = i)).map (fun c => c.name) =
      (l₂.find? (fun c => c.id = i)).map (fun c => c.name) := by
  intro l₁
  induction l₁ with
  | nil =>
    intro l₂ h
    have : l₂ = [] := by
      cases l₂ with
      | nil => rfl
      | cons b t => simp [nameIdPairs] at h
    rw [this]
  | cons a t₁ ih =>
    intro l₂ h
    cases l₂ with
    | nil => simp [nameIdPairs] at h
    | cons b t₂ =>
      simp only [nameIdPairs, List.map_cons, List.cons.injEq] at h
      have hname : a.name = b.name := congrArg (fun p => p.1) h.1
      have hid : a.id = b.id := congrArg (fun p => p.2) h.1
      by_cases hi : a.id = i
      · rw [List.find?_cons_of_pos _ (by simpa using hi),
          List.find?_cons_of_pos _ (by simp [← hid, hi])]
        simpa using hname
      · rw [List.find?_cons_of_neg _ (by simpa using hi),
          List.find?_cons_of_neg _ (by simp [← hid, hi])]
        exact ih t₂ h.2

/-- An id search projects to the same name on location lists with equal
frame maps. -/
theorem find?_id_locname_of_frame_eq (i : String) :
    ∀ (gcs₁ gcs₂ : List GroupChat), gcs₁.map chatFrame = gcs₂.map chatFrame →
    (gcs₁.find? (fun g => g.id = i)).map (fun g => g.name) =
      (gcs₂.find? (fun g => g.id = i)).map (fun g => g.name) := by
  intro gcs₁
  induction gcs₁ with
  | nil =>
    intro gcs₂ h
    have : gcs₂ = [] := by
      cases gcs₂ with
      | nil => rfl
      | cons b t => simp at h
    rw [this]
  | cons a t₁ ih =>
    intro gcs₂ h
    cases gcs₂ with
    | nil => simp at h
    | cons b t₂ =>
      simp only [List.map_cons, List.cons.injEq] at h
      have hid : a.id = b.id := congrArg (fun p => p.1) h.1
      have hname : a.name = b.name := congrArg (fun p => p.2.1) h.1
      by_cases hi : a.id = i
      · rw [List.find?_cons_of_pos _ (by simpa using hi),
          List.find?_cons_of_pos _ (by simp [← hid, hi])]
        simpa using hname
      · rw [List.find?_cons_of_neg _ (by simpa using hi),
          List.find?_cons_of_neg _ (by simp [← hid, hi])]
        exact ih t₂ h.2

/-- Resolving names to generated ids and back to names is the identity on
names present in a list with distinct non-empty ids. -/
theorem knownNamesOf_resolvePairs (chars : List Character)
    (hnd : (chars.map (fun c => c.id)).Nodup) (hne : ∀ c ∈ chars, c.id ≠ "") :
    ∀ names : List String, (∀ nm ∈ names, ∃ c ∈ chars, c.name = nm) →
    knownNamesOf chars (resolvePairs (nameIdPairs chars) names) = names := by
  intro names
  induction names with
  | nil => intro _; rfl
  | cons nm rest ih =>
    intro hmem
    obtain ⟨c₀, hc₀, hc₀nm⟩ := hmem nm (by simp)
    have hfindsome : (chars.find? (fun c => c.name = nm)).isSome := by
      rw [List.find?_isSome]
      exact ⟨c₀, hc₀, by simpa using hc₀nm⟩
    cases hfind : chars.find? (fun c => c.name = nm) with
    | none => rw [hfind] at hfindsome; simp at hfindsome
    | some c =>
      have hcmem : c ∈ chars := List.mem_of_find?_eq_some hfind
      have hcname : c.name = nm := by simpa using List.find?_some hfind
      have hcid : c.id ≠ "" := hne c hcmem
      rw [resolvePairs, List.filterMap_cons]
      rw [find?_nameIdPairs, hfind]
      dsimp only [Option.map_some']
      rw [if_neg hcid]
      rw [knownNamesOf, List.filterMap_cons]
      rw [find?_eq_self_of_nodup_map (fun c => c.id) chars hnd c hcmem]
      dsimp only [Option.map_some']
      have hrest := ih (fun x hx => hmem x (by simp [hx]))
      rw [resolvePairs] at hrest
      rw [knownNamesOf] at hrest
      rw [hrest, hcname]

/-- The stamped locations keep the source names in order. -/
theorem stampLocations_names (supply : Nat → String) (locs : List WorldLocationData) :
    ∀ n : Nat, (stampLocations supply n locs).map (fun g => g.name) =
      locs.map (fun l => l.name) := by
  induction locs with
  | nil => intro n; rfl
  | cons loc rest ih => intro n; rw [stampLocations]; simp [ih (n + 1)]

/-- Every stamped character id is non-empty when the supply never produces
the empty string. -/
theorem stampCharacters_id_ne (supply : Nat → String) (hsupne : ∀ n, supply n ≠ "")
    (gcs : List GroupChat) (data : List WorldCharacterData) (n : Nat) :
    ∀ c ∈ stampCharacters supply gcs n data, c.id ≠ "" := by
  intro c hc
  obtain ⟨k, _, hkid⟩ := stampCharacters_mem_id supply gcs data n c hc
  rw [hkid]
  exact hsupne k

/-- A world with no default-location fallback imports to the linked
characters and the threaded locations. -/
theorem importWorldData_eq (supply : Nat → String) (data : WorldData)
    (hno : ¬((importLocations supply data.locations 0).1.length = 0 ∧
      data.characters.length ≠ 0)) :
    importWorldData supply data =
      (linkKnownCharacters data.characters
        (importCharacters supply data.characters (importLocations supply data.locations 0).1
          (importLocations supply data.locations 0).2).1,
       (importCharacters supply data.characters (importLocations supply data.locations 0).1
         (importLocations supply data.locations 0).2).2.1) := by
  unfold importWorldData
  dsimp only
  rw [if_neg hno, if_neg hno]

/-- The exported known-character names are exactly the resolved names when
every character's name is non-empty. -/
theorem exportCharacterOf_knowns (characters : List Character) (groupChats : List GroupChat)
    (hne : ∀ c ∈ characters, c.name ≠ "") (ch : Character) :
    (exportCharacterOf characters groupChats ch).knownCharacters =
      knownNamesOf characters ch.knownCharacterIds := by
  unfold exportCharacterOf knownNamesOf
  apply List.filterMap_congr
  intro i _
  cases hfind : characters.find? (fun c => c.id = i) with
  | none => rfl
  | some c2 =>
    have : c2.name ≠ "" := hne c2 (List.mem_of_find?_eq_some hfind)
    dsimp only
    rw [if_neg this]
    rfl

/-- Known-name resolution only reads the (name, id) pairs. -/
theorem knownNamesOf_congr_pairs (l₁ l₂ : List Character)
    (h : nameIdPairs l₁ = nameIdPairs l₂) (ids : List String) :
    knownNamesOf l₁ ids = knownNamesOf l₂ ids := by
  unfold knownNamesOf
  apply List.filterMap_congr
  intro i _
  exact find?_id_name_of_pairs_eq i l₁ l₂ h

/-- C7 (amended: exposition lines, notes, and quotes must also be
non-empty strings, since import's `filter(Boolean)` silently drops empty
entries): exporting and re-importing a world reproduces the same number
of locations and characters with equal names, descriptions, exposition,
notes, quotes, location assignments (by name) and known-character
relationships (by name); only the generated ids differ. -/
theorem c7_round_trip (characters : List Character) (groupChats : List GroupChat)
    (supply : Nat → String)
    (hsupinj : Function.Injective supply) (hsupne : ∀ n, supply n ≠ "")
    (_hlocnames : (groupChats.map (fun g => g.name)).Nodup)
    (hloc : ∀ g ∈ groupChats, g.name ≠ "" ∧ g.description ≠ "" ∧ ∀ e ∈ g.exposition, e ≠ "")
    (hcharnames : (characters.map (fun c => c.name)).Nodup)
    (hchar : ∀ c ∈ characters, c.name ≠ "" ∧ c.description ≠ "" ∧
      (∃ g ∈ groupChats, g.id = c.groupChatId) ∧
      (∀ x ∈ c.notes, x ≠ "") ∧ (∀ x ∈ c.quotes, x ≠ "") ∧
      (∀ k ∈ c.knownCharacterIds, ∃ c2 ∈ characters, c2.id = k)) :
    (importWorldData supply (exportWorldData characters groupChats)).2.map locView =
      groupChats.map locView ∧
    (importWorldData supply (exportWorldData characters groupChats)).1.length =
      characters.length ∧
    (importWorldData supply (exportWorldData characters groupChats)).1.map
      (charView (importWorldData supply (exportWorldData characters groupChats)).1
        (importWorldData supply (exportWorldData characters groupChats)).2) =
      characters.map (charView characters groupChats) := by
  have hdatac : (exportWorldData characters groupChats).characters =
      characters.map (exportCharacterOf characters groupChats) := rfl
  have hdatal : (exportWorldData characters groupChats).locations =
      groupChats.map exportLocationOf := rfl
  have hguardloc : ∀ l ∈ (exportWorldData characters groupChats).locations,
      l.name ≠ "" ∧ l.description ≠ "" := by
    intro l hl
    rw [hdatal] at hl
    obtain ⟨g, hg, rfl⟩ := List.mem_map.mp hl
    exact ⟨(hloc g hg).1, (hloc g hg).2.1⟩
  have hguardchar : ∀ c ∈ (exportWorldData characters groupChats).characters,
      c.name ≠ "" ∧ c.description ≠ "" := by
    intro c hc
    rw [hdatac] at hc
    obtain ⟨c0, hc0, rfl⟩ := List.mem_map.mp hc
    exact ⟨(hchar c0 hc0).1, (hchar c0 hc0).2.1⟩
  have hp1 := importLocations_all_pass supply
    (exportWorldData characters groupChats).locations 0 hguardloc
  have hgcs0 : (importLocations supply (exportWorldData characters groupChats).locations 0).1 =
      stampLocations supply 0 (exportWorldData characters groupChats).locations := by
    rw [hp1]
  have hstamplen :
      (stampLocations supply 0 (exportWorldData characters groupChats).locations).length =
      groupChats.length := by
    have := congrArg List.length
      (stampLocations_map_view supply (exportWorldData characters groupChats).locations 0)
    rw [List.length_map, List.length_map] at this
    rw [this, hdatal, List.length_map]
  have hnodefault :
      ¬((importLocations supply (exportWorldData characters groupChats).locations 0).1.length = 0 ∧
        (exportWorldData characters groupChats).characters.length ≠ 0) := by
    rintro ⟨hlen0, hcne⟩
    rw [hdatac, List.length_map] at hcne
    cases hcs : characters with
    | nil => rw [hcs] at hcne; simp at hcne
    | cons c0 cs =>
      have hc0 := hchar c0 (by rw [hcs]; simp)
      obtain ⟨g, hg, _⟩ := hc0.2.2.1
      rw [hgcs0, hstamplen] at hlen0
      rw [List.length_eq_zero] at hlen0
      rw [hlen0] at hg
      simp at hg
  have himp := importWorldData_eq supply (exportWorldData characters groupChats) hnodefault
  have hpass := importCharacters_all_pass supply
    (exportWorldData characters groupChats).characters
    (importLocations supply (exportWorldData characters groupChats).locations 0).1
    (importLocations supply (exportWorldData characters groupChats).locations 0).2 hguardchar
  have hdatanames :
      (exportWorldData characters groupChats).characters.map (fun c => c.name) =
      characters.map (fun c => c.name) := by
    rw [hdatac, List.map_map]
    rfl
  have hchars0names :
      ((importCharacters supply (exportWorldData characters groupChats).characters
        (importLocations supply (exportWorldData characters groupChats).locations 0).1
        (importLocations supply (exportWorldData characters groupChats).locations 0).2).1).map
        (fun c => c.name) = characters.map (fun c => c.name) := by
    rw [hpass.1, stampCharacters_names]
    exact hdatanames
  have hlink := linkKnown_aux (exportWorldData characters groupChats).characters []
    (importCharacters supply (exportWorldData characters groupChats).characters
      (importLocations supply (exportWorldData characters groupChats).locations 0).1
      (importLocations supply (exportWorldData characters groupChats).locations 0).2).1
    (by rw [hchars0names]; exact hdatanames)
    (by rw [List.nil_append, hchars0names]; exact hcharnames)
  rw [List.nil_append, List.nil_append] at hlink
  have hgnames :
      ((importLocations supply (exportWorldData characters groupChats).locations 0).1).map
        (fun g => g.name) = groupChats.map (fun g => g.name) := by
    rw [hgcs0, stampLocations_names, hdatal, List.map_map]
    rfl
  have hgids :
      (((importLocations supply (exportWorldData characters groupChats).locations 0).1).map
        (fun g => g.id)).Nodup := by
    rw [hgcs0]
    exact stampLocations_ids_nodup supply hsupinj _ 0
  have hcids :
      (((importCharacters supply (exportWorldData characters groupChats).characters
        (importLocations supply (exportWorldData characters groupChats).locations 0).1
        (importLocations supply (exportWorldData characters groupChats).locations 0).2).1).map
        (fun c => c.id)).Nodup := by
    rw [hpass.1]
    exact stampCharacters_ids_nodup supply hsupinj _ _ _
  have hcidne : ∀ c ∈ (importCharacters supply
      (exportWorldData characters groupChats).characters
      (importLocations supply (exportWorldData characters groupChats).locations 0).1
      (importLocations supply (exportWorldData characters groupChats).locations 0).2).1,
      c.id ≠ "" := by
    rw [hpass.1]
    exact stampCharacters_id_ne supply hsupne _ _ _
  refine ⟨?_, ?_, ?_⟩
  · rw [himp]
    have hproj : ∀ gcs : List GroupChat,
        gcs.map locView = (gcs.map chatFrame).map (fun p => p.2) := by
      intro gcs
      rw [List.map_map]
      rfl
    show ((importCharacters supply (exportWorldData characters groupChats).characters
      (importLocations supply (exportWorldData characters groupChats).locations 0).1
      (importLocations supply (exportWorldData characters groupChats).locations 0).2).2.1).map
        locView = groupChats.map locView
    rw [hproj, hpass.2, ← hproj]
    rw [hgcs0, stampLocations_map_view, hdatal, List.map_map]
    apply List.map_congr_left
    intro g hg
    show (g.name, g.description, g.exposition.filter (fun e => e ≠ "")) = locView g
    have hf : g.exposition.filter (fun e => e ≠ "") = g.exposition := by
      rw [List.filter_eq_self]
      intro e he
      simpa using (hloc g hg).2.2 e he
    rw [hf]
    rfl
  · rw [himp]
    show (linkKnownCharacters (exportWorldData characters groupChats).characters
      (importCharacters supply (exportWorldData characters groupChats).characters
        (importLocations supply (exportWorldData characters groupChats).locations 0).1
        (importLocations supply (exportWorldData characters groupChats).locations 0).2).1).length =
      characters.length
    rw [hlink, List.length_zipWith]
    have h1 : (exportWorldData characters groupChats).characters.length = characters.length := by
      rw [hdatac, List.length_map]
    have h2 : ((importCharacters supply (exportWorldData characters groupChats).characters
        (importLocations supply (exportWorldData characters groupChats).locations 0).1
        (importLocations supply (exportWorldData characters groupChats).locations 0).2).1).length =
        characters.length := by
      rw [hpass.1, stampCharacters_length]
      exact h1
    rw [h1, h2]
    exact Nat.min_self _
  · rw [himp]
    show (linkKnownCharacters (exportWorldData characters groupChats).characters
      (importCharacters supply (exportWorldData characters groupChats).characters
        (importLocations supply (exportWorldData characters groupChats).locations 0).1
        (importLocations supply (exportWorldData characters groupChats).locations 0).2).1).map
      (charView
        (linkKnownCharacters (exportWorldData characters groupChats).characters
          (importCharacters supply (exportWorldData characters groupChats).characters
            (importLocations supply (exportWorldData characters groupChats).locations 0).1
            (importLocations supply (exportWorldData characters groupChats).locations 0).2).1)
        (importCharacters supply (exportWorldData characters groupChats).characters
          (importLocations supply (exportWorldData characters groupChats).locations 0).1
          (importLocations supply (exportWorldData characters groupChats).locations 0).2).2.1) =
      characters.map (charView characters groupChats)
    rw [hlink]
    have hlendata : (exportWorldData characters groupChats).characters.length =
        characters.length := by
      rw [hdatac, List.length_map]
    have hlenchars0 : ((importCharacters supply (exportWorldData characters groupChats).characters
        (importLocations supply (exportWorldData characters groupChats).locations 0).1
        (importLocations supply (exportWorldData characters groupChats).locations 0).2).1).length =
        characters.length := by
      rw [hpass.1, stampCharacters_length]
      exact hlendata
    have hpairszip : nameIdPairs (List.zipWith
        (fun src c => { c with knownCharacterIds := resolvePairs (nameIdPairs
            (importCharacters supply (exportWorldData characters groupChats).characters
              (importLocations supply (exportWorldData characters groupChats).locations 0).1
              (importLocations supply (exportWorldData characters groupChats).locations 0).2).1) src.knownCharacters })
        (exportWorldData characters groupChats).characters
        (importCharacters supply (exportWorldData characters groupChats).characters
          (importLocations supply (exportWorldData characters groupChats).locations 0).1
          (importLocations supply (exportWorldData characters groupChats).locations 0).2).1) =
        nameIdPairs (importCharacters supply (exportWorldData characters groupChats).characters
          (importLocations supply (exportWorldData characters groupChats).locations 0).1
          (importLocations supply (exportWorldData characters groupChats).locations 0).2).1 := by
      unfold nameIdPairs
      apply zipWith_map_proj
      · intro s c
        rfl
      · rw [hlendata, hlenchars0]
    have hnamesne : ∀ c' ∈ characters, c'.name ≠ "" := fun c' h => (hchar c' h).1
    apply List.ext_getElem?
    intro k
    rw [List.getElem?_map, List.getElem?_map]
    rw [zipWith_getElem?]
    have hdk : (exportWorldData characters groupChats).characters[k]? =
        characters[k]?.map (exportCharacterOf characters groupChats) := by
      rw [hdatac, List.getElem?_map]
    have hsk : ((importCharacters supply (exportWorldData characters groupChats).characters
        (importLocations supply (exportWorldData characters groupChats).locations 0).1
        (importLocations supply (exportWorldData characters groupChats).locations 0).2).1)[k]? =
        (exportWorldData characters groupChats).characters[k]?.map (fun c =>
          { id := supply ((importLocations supply
              (exportWorldData characters groupChats).locations 0).2 + k)
            name := c.name, description := c.description, pfp_base64 := c.pfp_base64
            groupChatId := (resolveLocId
              (importLocations supply (exportWorldData characters groupChats).locations 0).1
              c.location).getD ""
            notes := c.notes.filter (fun x => x ≠ "")
            quotes := c.quotes.filter (fun x => x ≠ "")
            knownCharacterIds := [] }) := by
      rw [hpass.1, stampCharacters_getElem]
    rw [hsk, hdk]
    cases hck : characters[k]? with
    | none => rfl
    | some c =>
      have hcmem : c ∈ characters := by
        obtain ⟨hlt, hrfl⟩ := List.getElem?_eq_some.mp hck
        rw [← hrfl]
        exact List.getElem_mem hlt
      dsimp only [Option.map_some']
      apply congrArg some
      have hc := hchar c hcmem
      obtain ⟨g0, hg0mem, hg0id⟩ := hc.2.2.1
      have hfindgsome : (groupChats.find? (fun g => g.id = c.groupChatId)).isSome := by
        rw [List.find?_isSome]
        exact ⟨g0, hg0mem, by simpa using hg0id⟩
      cases hfindg : groupChats.find? (fun g => g.id = c.groupChatId) with
      | none => rw [hfindg] at hfindgsome; simp at hfindgsome
      | some gf =>
        have hgfmem : gf ∈ groupChats := List.mem_of_find?_eq_some hfindg
        have hlocfield : (exportCharacterOf characters groupChats c).location = gf.name := by
          unfold exportCharacterOf
          dsimp only
          rw [hfindg]
        have hnamemem : gf.name ∈ ((importLocations supply
            (exportWorldData characters groupChats).locations 0).1).map (fun g => g.name) := by
          rw [hgnames]
          exact List.mem_map_of_mem _ hgfmem
        have hfindnsome : (((importLocations supply
            (exportWorldData characters groupChats).locations 0).1).find?
            (fun g => g.name = gf.name)).isSome := by
          rw [List.find?_isSome]
          obtain ⟨G, hG, hGn⟩ := List.mem_map.mp hnamemem
          exact ⟨G, hG, by simpa using hGn⟩
        cases hfindn : ((importLocations supply
            (exportWorldData characters groupChats).locations 0).1).find?
            (fun g => g.name = gf.name) with
        | none => rw [hfindn] at hfindnsome; simp at hfindnsome
        | some G =>
          have hGmem : G ∈ (importLocations supply
              (exportWorldData characters groupChats).locations 0).1 :=
            List.mem_of_find?_eq_some hfindn
          have hGname : G.name = gf.name := by simpa using List.find?_some hfindn
          have hres : resolveLocId
              (importLocations supply (exportWorldData characters groupChats).locations 0).1
              (exportCharacterOf characters groupChats c).location = some G.id := by
            rw [hlocfield]
            unfold resolveLocId
            rw [hfindn]
          have hfindid : ((importLocations supply
              (exportWorldData characters groupChats).locations 0).1).find?
              (fun g => g.id = G.id) = some G :=
            find?_eq_self_of_nodup_map (fun g => g.id) _ hgids G hGmem
          have hlhsloc : locNameOf (importCharacters supply
              (exportWorldData characters groupChats).characters
              (importLocations supply (exportWorldData characters groupChats).locations 0).1
              (importLocations supply
                (exportWorldData characters groupChats).locations 0).2).2.1 G.id =
              some gf.name := by
            unfold locNameOf
            rw [find?_id_locname_of_frame_eq G.id _ _ hpass.2]
            rw [hfindid]
            simpa using hGname
          have hrhsloc : locNameOf groupChats c.groupChatId = some gf.name := by
            unfold locNameOf
            rw [hfindg]
            rfl
          have hsubnames : ∀ nm ∈ (exportCharacterOf characters groupChats c).knownCharacters,
              ∃ c' ∈ (importCharacters supply
                (exportWorldData characters groupChats).characters
                (importLocations supply (exportWorldData characters groupChats).locations 0).1
                (importLocations supply
                  (exportWorldData characters groupChats).locations 0).2).1,
                c'.name = nm := by
            intro nm hnm
            rw [exportCharacterOf_knowns characters groupChats hnamesne c] at hnm
            obtain ⟨i, _, hmapi⟩ := List.mem_filterMap.mp hnm
            cases hf : characters.find? (fun x => x.id = i) with
            | none => rw [hf] at hmapi; simp at hmapi
            | some c2 =>
              rw [hf] at hmapi
              have hc2 : c2.name = nm := by simpa using hmapi
              have hnmmem : nm ∈ ((importCharacters supply
                  (exportWorldData characters groupChats).characters
                  (importLocations supply
                    (exportWorldData characters groupChats).locations 0).1
                  (importLocations supply
                    (exportWorldData characters groupChats).locations 0).2).1).map
                  (fun x => x.name) := by
                rw [hchars0names, ← hc2]
                exact List.mem_map_of_mem _ (List.mem_of_find?_eq_some hf)
              obtain ⟨c', hc', hc'n⟩ := List.mem_map.mp hnmmem
              exact ⟨c', hc', hc'n⟩
          have hknowns : knownNamesOf (List.zipWith
              (fun src c => { c with knownCharacterIds := resolvePairs (nameIdPairs
                  (importCharacters supply (exportWorldData characters groupChats).characters
                    (importLocations supply
                      (exportWorldData characters groupChats).locations 0).1
                    (importLocations supply
                      (exportWorldData characters groupChats).locations 0).2).1) src.knownCharacters })
              (exportWorldData characters groupChats).characters
              (importCharacters supply (exportWorldData characters groupChats).characters
                (importLocations supply (exportWorldData characters groupChats).locations 0).1
                (importLocations supply
                  (exportWorldData characters groupChats).locations 0).2).1)
              (resolvePairs (nameIdPairs
                (importCharacters supply (exportWorldData characters groupChats).characters
                  (importLocations supply (exportWorldData characters groupChats).locations 0).1
                  (importLocations supply
                    (exportWorldData characters groupChats).locations 0).2).1)
                (exportCharacterOf characters groupChats c).knownCharacters) =
              knownNamesOf characters c.knownCharacterIds := by
            rw [knownNamesOf_congr_pairs _ _ hpairszip]
            rw [knownNamesOf_resolvePairs _ hcids hcidne _ hsubnames]
            rw [exportCharacterOf_knowns characters groupChats hnamesne c]
          unfold charView
          rw [hres]
          dsimp only [Option.getD]
          rw [hlhsloc, hrhsloc, hknowns]
          have hnotes : (exportCharacterOf characters groupChats c).notes.filter
              (fun x => x ≠ "") = c.notes := by
            show c.notes.filter (fun x => x ≠ "") = c.notes
            rw [List.filter_eq_self]
            intro x hx
            simpa using hc.2.2.2.1 x hx
          have hquotes : (exportCharacterOf characters groupChats c).quotes.filter
              (fun x => x ≠ "") = c.quotes := by
            show c.quotes.filter (fun x => x ≠ "") = c.quotes
            rw [List.filter_eq_self]
            intro x hx
            simpa using hc.2.2.2.2.1 x hx
          rw [hnotes, hquotes]
          rfl

/-- Counterexample to C7 as stated: a world meeting all the claim's
hypotheses whose character has an empty-string note; the note survives
export but import's `filter(Boolean)` drops it, so the imported notes are
not equal to the originals. -/
theorem c7_counterexample_empty_note :
    (exportWorldData
      [{ id := "c1", name := "A", description := "d", groupChatId := "g1", notes := [""],
         quotes := [], knownCharacterIds := [] }]
      [{ id := "g1", name := "L", description := "d", characterIds := ["c1"] }]).characters.map
      (fun c => c.notes) = [[""]] ∧
    (importWorldData sampleSupply (exportWorldData
      [{ id := "c1", name := "A", description := "d", groupChatId := "g1", notes := [""],
         quotes := [], knownCharacterIds := [] }]
      [{ id := "g1", name := "L", description := "d", characterIds := ["c1"] }])).1.map
      (fun c => c.notes) = [[]] := by
  refine ⟨by decide, by decide⟩

/-- Witness for C7 (amended) on a concrete two-location, two-character
world with a relationship edge. -/
theorem c7_round_trip_witness :
    (importWorldData injSupply
      (exportWorldData [sampleChar, sampleChar2] [sampleChat, sampleChat2])).1.length = 2 ∧
    (importWorldData injSupply
      (exportWorldData [sampleChar, sampleChar2] [sampleChat, sampleChat2])).2.map locView =
      [sampleChat, sampleChat2].map locView := by
  have hinj : Function.Injective injSupply := by
    intro a b h
    have := congrArg (fun s => s.data.length) h
    simp only [injSupply, List.length_replicate] at this
    omega
  have hne : ∀ n, injSupply n ≠ "" := by
    intro n h
    have := congrArg (fun s => s.data.length) h
    simp [injSupply, List.length_replicate] at this
  have hmain := c7_round_trip [sampleChar, sampleChar2] [sampleChat, sampleChat2] injSupply
    hinj hne (by decide) (by decide) (by decide) (by decide)
  exact ⟨hmain.2.1, hmain.1⟩

/-- Membership in the `Set`-dedup accumulator run. -/
theorem mem_jsSetDedupGo (a : String) : ∀ (l seen : List String),
    a ∈ jsSetDedupGo seen l ↔ a ∈ l ∧ a ∉ seen := by
  intro l
  induction l with
  | nil => intro seen; simp [jsSetDedupGo]
  | cons x xs ih =>
    intro seen
    by_cases hx : x ∈ seen
    · rw [jsSetDedupGo, if_pos hx, ih]
      constructor
      · rintro ⟨h1, h2⟩
        exact ⟨List.mem_cons_of_mem _ h1, h2⟩
      · rintro ⟨h1, h2⟩
        rcases List.mem_cons.mp h1 with rfl | h1
        · exact absurd hx h2
        · exact ⟨h1, h2⟩
    · rw [jsSetDedupGo, if_neg hx]
      constructor
      · intro h
        rcases List.mem_cons.mp h with rfl | h
        · exact ⟨List.mem_cons_self _ _, hx⟩
        · rw [ih] at h
          exact ⟨List.mem_cons_of_mem _ h.1, fun hs => h.2 (List.mem_cons_of_mem _ hs)⟩
      · rintro ⟨h1, h2⟩
        rcases List.mem_cons.mp h1 with rfl | h1
        · exact List.mem_cons_self _ _
        · by_cases hax : a = x
          · rw [hax]; exact List.mem_cons_self _ _
          · refine List.mem_cons_of_mem _ ?_
            rw [ih]
            refine ⟨h1, fun hs => ?_⟩
            rcases List.mem_cons.mp hs with h | h
            · exact hax h
            · exact h2 h

/-- `[...new Set(l)]` has the same members as `l`. -/
theorem mem_jsSetDedup (a : String) (l : List String) : a ∈ jsSetDedup l ↔ a ∈ l := by
  rw [jsSetDedup, mem_jsSetDedupGo]
  simp

/-- A guarded fold over characters none of which match is the identity. -/
theorem foldl_guard_const {α : Type} (cid : String) (f : α → Character → α) :
    ∀ (cs : List Character) (init : α), (∀ c ∈ cs, c.id ≠ cid) →
    cs.foldl (fun acc c => if c.id = cid then f acc c else acc) init = init := by
  intro cs
  induction cs with
  | nil => intro init _; rfl
  | cons c cs ih =>
    intro init h
    simp only [List.foldl_cons]
    rw [if_neg (h c (List.mem_cons_self _ _))]
    exact ih init (fun x hx => h x (List.mem_cons_of_mem _ hx))

/-- Under duplicate-free character ids the guarded fold fires at most once,
at the character `find?` locates. -/
theorem foldl_guard_find {α : Type} (cid : String) (f : α → Character → α) :
    ∀ (cs : List Character) (init : α), (cs.map (fun c => c.id)).Nodup →
    cs.foldl (fun acc c => if c.id = cid then f acc c else acc) init =
      (match cs.find? (fun c => c.id = cid) with
       | none => init
       | some ch => f init ch) := by
  intro cs
  induction cs with
  | nil => intro init _; rfl
  | cons c cs ih =>
    intro init hnd
    rw [List.map_cons, List.nodup_cons] at hnd
    simp only [List.foldl_cons]
    by_cases hc : c.id = cid
    · rw [if_pos hc, List.find?_cons_of_pos _ (by simpa using hc)]
      exact foldl_guard_const cid f cs (f init c) (fun x hx hxid =>
        hnd.1 (List.mem_map.mpr ⟨x, hx, by rw [hxid, hc]⟩))
    · rw [if_neg hc, List.find?_cons_of_neg _ (by simpa using hc)]
      exact ih init hnd.2

/-- With duplicate-free character ids, `updateCharacter` patches the (at
most one) matching character and runs the location bookkeeping once, for
the character `find?` locates. -/
theorem updateCharacter_eq (w : World) (cid : String) (u : CharacterPatch)
    (hnd : (w.characters.map (fun c => c.id)).Nodup) :
    updateCharacter w cid u =
      { characters := w.characters.map (fun c => if c.id = cid then applyCharacterPatch c u else c)
        groupChats :=
          match w.characters.find? (fun c => c.id = cid) with
          | none => w.groupChats
          | some ch => updateCharacterMoveStep cid u w.groupChats ch } := by
  unfold updateCharacter
  congr 1
  exact foldl_guard_find cid (fun gcs c => updateCharacterMoveStep cid u gcs c)
    w.characters w.groupChats hnd

/-- Packaging of the per-location invariant for a literal world. -/
theorem invariantAt_mk (chars : List Character) (gcs : List GroupChat) (L : GroupChat)
    (h1 : ∀ x ∈ L.characterIds, ∃ c ∈ chars, c.id = x ∧ c.groupChatId = L.id)
    (h2 : ∀ c ∈ chars, c.groupChatId = L.id → c.id ∈ L.characterIds) :
    InvariantAt ⟨chars, gcs⟩ L := ⟨h1, h2⟩

/-- Packaging of well-formedness for a literal world. -/
theorem wellFormed_mk (chars : List Character) (gcs : List GroupChat)
    (h1 : ∀ L ∈ gcs, InvariantAt ⟨chars, gcs⟩ L)
    (h2 : (chars.map (fun c => c.id)).Nodup)
    (h3 : (gcs.map (fun g => g.id)).Nodup)
    (h4 : ∀ g ∈ gcs, g.id ≠ "")
    (h5 : ∀ c ∈ chars, c.groupChatId = "" ∨ ∃ g ∈ gcs, g.id = c.groupChatId) :
    WellFormed ⟨chars, gcs⟩ := ⟨h1, h2, h3, h4, h5⟩

/-- `InvariantAt` only reads the character list and the location itself. -/
theorem invariantAt_of_fields (w w' : World) (L L' : GroupChat)
    (hchars : w'.characters = w.characters) (hid : L'.id = L.id)
    (hmem : L'.characterIds = L.characterIds) (h : InvariantAt w L) :
    InvariantAt w' L' := by
  unfold InvariantAt at h ⊢
  rw [hchars, hid, hmem]
  exact h

/-- A character map that fixes ids and assignments preserves the
per-location invariant. -/
theorem invariantAt_map_chars (chars : List Character) (gcs gcs' : List GroupChat)
    (f : Character → Character)
    (hf : ∀ c ∈ chars, (f c).id = c.id ∧ (f c).groupChatId = c.groupChatId)
    (L : GroupChat) (h : InvariantAt ⟨chars, gcs⟩ L) :
    InvariantAt ⟨chars.map f, gcs'⟩ L := by
  obtain ⟨hfwd, hbwd⟩ := h
  refine invariantAt_mk _ _ _ ?_ ?_
  · intro x hx
    obtain ⟨c, hc, hcid, hcg⟩ := hfwd x hx
    exact ⟨f c, List.mem_map_of_mem f hc, (hf c hc).1.trans hcid, (hf c hc).2.trans hcg⟩
  · intro y hy hyg
    obtain ⟨c, hc, rfl⟩ := List.mem_map.mp hy
    rw [(hf c hc).1]
    exact hbwd c hc ((hf c hc).2 ▸ hyg)

/-- An id-preserving location map keeps the id list. -/
theorem map_chats_ids (gcs : List GroupChat) (f : GroupChat → GroupChat)
    (hf : ∀ g ∈ gcs, (f g).id = g.id) :
    (gcs.map f).map (fun g => g.id) = gcs.map (fun g => g.id) := by
  rw [List.map_map]
  exact List.map_congr_left (fun g hg => hf g hg)

/-- An id-preserving location map keeps which ids exist. -/
theorem exists_chat_id_map (gcs : List GroupChat) (f : GroupChat → GroupChat)
    (hf : ∀ g ∈ gcs, (f g).id = g.id) (t : String) :
    (∃ g ∈ gcs.map f, g.id = t) ↔ ∃ g ∈ gcs, g.id = t := by
  constructor
  · rintro ⟨g', hg', hgt⟩
    obtain ⟨g, hg, rfl⟩ := List.mem_map.mp hg'
    exact ⟨g, hg, (hf g hg).symm.trans hgt⟩
  · rintro ⟨g, hg, hgt⟩
    exact ⟨f g, List.mem_map_of_mem f hg, (hf g hg).trans hgt⟩

/-- `createCharacter` with a fresh id and a valid (or empty) assignment
preserves well-formedness. -/
theorem wf_createCharacter (w : World) (c : Character)
    (hfresh : c.id ∉ w.characters.map (fun x => x.id))
    (hassign : c.groupChatId = "" ∨ ∃ g ∈ w.groupChats, g.id = c.groupChatId)
    (hwf : WellFormed w) : WellFormed (createCharacter w c) := by
  obtain ⟨hcons, hndc, hndg, hne, hdang⟩ := hwf
  have hndc' : ((w.characters ++ [c]).map (fun x => x.id)).Nodup := by
    rw [List.map_append, List.nodup_append]
    refine ⟨hndc, by simp, ?_⟩
    intro x hx hx'
    have : x = c.id := by simpa using hx'
    exact hfresh (this ▸ hx)
  unfold createCharacter
  by_cases hg : c.groupChatId ≠ ""
  · rw [if_pos hg]
    have hfid : ∀ g ∈ w.groupChats,
        ((fun g => if g.id = c.groupChatId then
            { g with characterIds := jsSetDedup (g.characterIds ++ [c.id]) }
          else g) g).id = g.id := by
      intro g hg'
      by_cases h : g.id = c.groupChatId <;> simp [h]
    refine wellFormed_mk _ _ ?_ hndc' ?_ ?_ ?_
    · intro L' hL'
      obtain ⟨g, hgmem, rfl⟩ := List.mem_map.mp hL'
      have hg_inv := hcons g hgmem
      by_cases h : g.id = c.groupChatId
      · simp only [if_pos h]
        refine invariantAt_mk _ _ _ ?_ ?_
        · intro x hx
          have hx' : x ∈ g.characterIds ++ [c.id] := (mem_jsSetDedup _ _).mp hx
          rcases List.mem_append.mp hx' with hx2 | hx2
          · obtain ⟨c', hc', hcid, hcg⟩ := hg_inv.1 x hx2
            exact ⟨c', List.mem_append_left _ hc', hcid, hcg⟩
          · have hxc : x = c.id := by simpa using hx2
            subst hxc
            exact ⟨c, List.mem_append_right _ (by simp), rfl, h.symm⟩
        · intro y hy hyg
          refine (mem_jsSetDedup _ _).mpr ?_
          rcases List.mem_append.mp hy with hy2 | hy2
          · exact List.mem_append_left _ (hg_inv.2 y hy2 hyg)
          · have hyc : y = c := by simpa using hy2
            subst hyc
            exact List.mem_append_right _ (by simp)
      · simp only [if_neg h]
        refine invariantAt_mk _ _ _ ?_ ?_
        · intro x hx
          obtain ⟨c', hc', hcid, hcg⟩ := hg_inv.1 x hx
          exact ⟨c', List.mem_append_left _ hc', hcid, hcg⟩
        · intro y hy hyg
          rcases List.mem_append.mp hy with hy2 | hy2
          · exact hg_inv.2 y hy2 hyg
          · have hyc : y = c := by simpa using hy2
            subst hyc
            exact absurd hyg.symm h
    · rw [map_chats_ids _ _ hfid]
      exact hndg
    · intro g' hg'
      obtain ⟨g, hg2, rfl⟩ := List.mem_map.mp hg'
      rw [hfid g hg2]
      exact hne g hg2
    · intro y hy
      rcases List.mem_append.mp hy with hy2 | hy2
      · rcases hdang y hy2 with h0 | hex
        · exact Or.inl h0
        · exact Or.inr ((exists_chat_id_map _ _ hfid _).mpr hex)
      · have hyc : y = c := by simpa using hy2
        subst hyc
        rcases hassign with h0 | hex
        · exact Or.inl h0
        · exact Or.inr ((exists_chat_id_map _ _ hfid _).mpr hex)
  · rw [if_neg hg]
    have hgeq : c.groupChatId = "" := by simpa using hg
    refine wellFormed_mk _ _ ?_ hndc' hndg hne ?_
    · intro L hL
      have hinv := hcons L hL
      refine invariantAt_mk _ _ _ ?_ ?_
      · intro x hx
        obtain ⟨c', hc', hcid, hcg⟩ := hinv.1 x hx
        exact ⟨c', List.mem_append_left _ hc', hcid, hcg⟩
      · intro y hy hyg
        rcases List.mem_append.mp hy with hy2 | hy2
        · exact hinv.2 y hy2 hyg
        · have hyc : y = c := by simpa using hy2
          subst hyc
          rw [hgeq] at hyg
          exact absurd hyg.symm (hne L hL)
    · intro y hy
      rcases List.mem_append.mp hy with hy2 | hy2
      · exact hdang y hy2
      · have hyc : y = c := by simpa using hy2
        subst hyc
        exact Or.inl hgeq

/-- `createGroupChat` with an empty member list and a fresh non-empty id
preserves well-formedness. -/
theorem wf_createGroupChat (w : World) (g : GroupChat)
    (hempty : g.characterIds = []) (hgne : g.id ≠ "")
    (hfresh : g.id ∉ w.groupChats.map (fun x => x.id)) (hwf : WellFormed w) :
    WellFormed (createGroupChat w g) := by
  obtain ⟨hcons, hndc, hndg, hne, hdang⟩ := hwf
  unfold createGroupChat
  refine wellFormed_mk _ _ ?_ hndc ?_ ?_ ?_
  · intro L hL
    rcases List.mem_append.mp hL with hL2 | hL2
    · exact hcons L hL2
    · have hLg : L = g := by simpa using hL2
      subst hLg
      refine invariantAt_mk _ _ _ ?_ ?_
      · intro x hx
        rw [hempty] at hx
        exact absurd hx (List.not_mem_nil x)
      · intro y hy hyg
        rcases hdang y hy with h0 | hex
        · exact absurd (h0 ▸ hyg).symm hgne
        · obtain ⟨g', hg', hg'id⟩ := hex
          exact absurd (List.mem_map.mpr ⟨g', hg', hg'id.trans hyg⟩) hfresh
  · rw [List.map_append, List.nodup_append]
    refine ⟨hndg, by simp, ?_⟩
    intro x hx hx'
    have : x = g.id := by simpa using hx'
    exact hfresh (this ▸ hx)
  · intro g' hg'
    rcases List.mem_append.mp hg' with h2 | h2
    · exact hne g' h2
    · have : g' = g := by simpa using h2
      exact this ▸ hgne
  · intro y hy
    rcases hdang y hy with h0 | hex
    · exact Or.inl h0
    · obtain ⟨g', hg', hg'id⟩ := hex
      exact Or.inr ⟨g', List.mem_append_left _ hg', hg'id⟩

/-- `updateGroupChat` with no member-list patch preserves well-formedness. -/
theorem wf_updateGroupChat_frame (w : World) (gid : String) (u : GroupChatPatch)
    (hu : u.characterIds = none) (hwf : WellFormed w) :
    WellFormed (updateGroupChat w gid u) := by
  obtain ⟨hcons, hndc, hndg, hne, hdang⟩ := hwf
  have hkey : ∀ g ∈ w.groupChats,
      (if g.id = gid then applyGroupChatPatch g u else g).id = g.id ∧
      (if g.id = gid then applyGroupChatPatch g u else g).characterIds =
        g.characterIds := by
    intro g hg
    by_cases h : g.id = gid
    · rw [if_pos h]
      refine ⟨rfl, ?_⟩
      unfold applyGroupChatPatch
      rw [hu]
    · rw [if_neg h]
      exact ⟨rfl, rfl⟩
  unfold updateGroupChat
  refine wellFormed_mk _ _ ?_ hndc ?_ ?_ ?_
  · intro L' hL'
    obtain ⟨g, hg, rfl⟩ := List.mem_map.mp hL'
    exact invariantAt_of_fields w _ g _ rfl (hkey g hg).1 (hkey g hg).2 (hcons g hg)
  · rw [map_chats_ids _ _ (fun g hg => (hkey g hg).1)]
    exact hndg
  · intro g' hg'
    obtain ⟨g, hg, rfl⟩ := List.mem_map.mp hg'
    rw [(hkey g hg).1]
    exact hne g hg
  · intro y hy
    rcases hdang y hy with h0 | hex
    · exact Or.inl h0
    · exact Or.inr ((exists_chat_id_map _ _ (fun g hg => (hkey g hg).1) _).mpr hex)

/-- `updateGroupChat` patching the member list to any list whose members
are exactly the ids of the characters assigned to the location preserves
well-formedness (the patch is deduplicated by the code). -/
theorem wf_updateGroupChat_members (w : World) (gid : String) (ids : List String)
    (hset : ∀ x, x ∈ ids ↔ ∃ c ∈ w.characters, c.id = x ∧ c.groupChatId = gid)
    (hwf : WellFormed w) :
    WellFormed (updateGroupChat w gid { characterIds := some ids }) := by
  obtain ⟨hcons, hndc, hndg, hne, hdang⟩ := hwf
  have hfid : ∀ g ∈ w.groupChats,
      ((fun g => if g.id = gid then applyGroupChatPatch g { characterIds := some ids } else g)
        g).id = g.id := by
    intro g hg
    by_cases h : g.id = gid <;> simp [h, applyGroupChatPatch]
  unfold updateGroupChat
  refine wellFormed_mk _ _ ?_ hndc ?_ ?_ ?_
  · intro L' hL'
    obtain ⟨g, hg, rfl⟩ := List.mem_map.mp hL'
    by_cases h : g.id = gid
    · simp only [if_pos h]
      refine invariantAt_mk _ _ _ ?_ ?_
      · intro x hx
        have hx' : x ∈ ids := (mem_jsSetDedup x ids).mp hx
        obtain ⟨c, hc, hcid, hcg⟩ := (hset x).mp hx'
        exact ⟨c, hc, hcid, hcg.trans h.symm⟩
      · intro y hy hyg
        exact (mem_jsSetDedup _ _).mpr ((hset y.id).mpr ⟨y, hy, rfl, hyg.trans h⟩)
    · simp only [if_neg h]
      exact hcons g hg
  · rw [map_chats_ids _ _ hfid]
    exact hndg
  · intro g' hg'
    obtain ⟨g, hg, rfl⟩ := List.mem_map.mp hg'
    rw [hfid g hg]
    exact hne g hg
  · intro y hy
    rcases hdang y hy with h0 | hex
    · exact Or.inl h0
    · exact Or.inr ((exists_chat_id_map _ _ hfid _).mpr hex)

/-- `removeCharacterFromChat`, invoked for the chat the character is in
(or for an unassigned character), preserves well-formedness. -/
theorem wf_removeCharacterFromChat (w : World) (chatId cid : String)
    (hassigned : ∀ c ∈ w.characters, c.id = cid → c.groupChatId = chatId ∨ c.groupChatId = "")
    (hwf : WellFormed w) : WellFormed (removeCharacterFromChat w chatId cid) := by
  obtain ⟨hcons, hndc, hndg, hne, hdang⟩ := hwf
  unfold removeCharacterFromChat removeFromChat
  have hpid : ∀ c : Character,
      ((fun c => if c.id = cid then { c with groupChatId := "" } else c) c).id = c.id := by
    intro c
    by_cases h : c.id = cid <;> simp [h]
  have hRid : ∀ g ∈ w.groupChats,
      ((fun g => if g.id = chatId then
          { g with characterIds := g.characterIds.filter (fun x => x ≠ cid) }
        else g) g).id = g.id := by
    intro g hg
    by_cases h : g.id = chatId <;> simp [h]
  refine wellFormed_mk _ _ ?_ ?_ ?_ ?_ ?_
  · intro L' hL'
    obtain ⟨g, hg, rfl⟩ := List.mem_map.mp hL'
    have hinv := hcons g hg
    by_cases h : g.id = chatId
    · simp only [if_pos h]
      refine invariantAt_mk _ _ _ ?_ ?_
      · intro x hx
        have hx' := List.mem_filter.mp hx
        have hxc : x ≠ cid := by simpa using hx'.2
        obtain ⟨c, hc, hcid, hcg⟩ := hinv.1 x hx'.1
        have hcne : ¬(c.id = cid) := by
          rw [hcid]
          exact hxc
        refine ⟨_, List.mem_map_of_mem _ hc, ?_, ?_⟩
        · rw [if_neg hcne]
          exact hcid
        · rw [if_neg hcne]
          exact hcg
      · intro y hy hyg
        obtain ⟨c, hc, rfl⟩ := List.mem_map.mp hy
        by_cases hcc : c.id = cid
        · rw [if_pos hcc] at hyg
          exact absurd hyg.symm (hne g hg)
        · rw [if_neg hcc] at hyg ⊢
          refine List.mem_filter.mpr ⟨hinv.2 c hc hyg, ?_⟩
          simpa using hcc
    · simp only [if_neg h]
      refine invariantAt_mk _ _ _ ?_ ?_
      · intro x hx
        obtain ⟨c, hc, hcid, hcg⟩ := hinv.1 x hx
        have hcne : ¬(c.id = cid) := by
          intro hcc
          rcases hassigned c hc hcc with h1 | h1
          · exact h (hcg.symm.trans h1)
          · exact hne g hg (hcg.symm.trans h1)
        refine ⟨_, List.mem_map_of_mem _ hc, ?_, ?_⟩
        · rw [if_neg hcne]
          exact hcid
        · rw [if_neg hcne]
          exact hcg
      · intro y hy hyg
        obtain ⟨c, hc, rfl⟩ := List.mem_map.mp hy
        by_cases hcc : c.id = cid
        · rw [if_pos hcc] at hyg
          exact absurd hyg.symm (hne g hg)
        · rw [if_neg hcc] at hyg ⊢
          exact hinv.2 c hc hyg
  · have hmapeq : (w.characters.map
        (fun c => if c.id = cid then { c with groupChatId := "" } else c)).map
        (fun c => c.id) = w.characters.map (fun c => c.id) := by
      rw [List.map_map]
      exact List.map_congr_left (fun c hc => hpid c)
    rw [hmapeq]
    exact hndc
  · rw [map_chats_ids _ _ hRid]
    exact hndg
  · intro g' hg'
    obtain ⟨g, hg2, rfl⟩ := List.mem_map.mp hg'
    rw [hRid g hg2]
    exact hne g hg2
  · intro y hy
    obtain ⟨c, hc, rfl⟩ := List.mem_map.mp hy
    by_cases hcc : c.id = cid
    · rw [if_pos hcc]
      exact Or.inl rfl
    · rw [if_neg hcc]
      rcases hdang c hc with h0 | hex
      · exact Or.inl h0
      · exact Or.inr ((exists_chat_id_map _ _ hRid _).mpr hex)

/-- An id-preserving character map keeps the id list. -/
theorem map_chars_ids (cs : List Character) (f : Character → Character)
    (hf : ∀ c ∈ cs, (f c).id = c.id) :
    (cs.map f).map (fun c => c.id) = cs.map (fun c => c.id) := by
  rw [List.map_map]
  exact List.map_congr_left (fun c hc => hf c hc)

/-- A character map that fixes every id and assignment, with locations
untouched, preserves well-formedness. -/
theorem wf_of_char_frame (w : World) (f : Character → Character)
    (hf : ∀ c ∈ w.characters, (f c).id = c.id ∧ (f c).groupChatId = c.groupChatId)
    (hwf : WellFormed w) : WellFormed ⟨w.characters.map f, w.groupChats⟩ := by
  obtain ⟨hcons, hndc, hndg, hne, hdang⟩ := hwf
  refine wellFormed_mk _ _ ?_ ?_ hndg hne ?_
  · intro L hL
    exact invariantAt_map_chars w.characters w.groupChats _ f hf L (hcons L hL)
  · rw [map_chars_ids _ _ (fun c hc => (hf c hc).1)]
    exact hndc
  · intro y hy
    obtain ⟨c, hc, rfl⟩ := List.mem_map.mp hy
    rw [(hf c hc).2]
    exact hdang c hc

/-- The remove-then-add relocation bookkeeping fused into a single map
over the locations (for distinct source and destination ids). -/
theorem addToChat_removeFromChat_eq (gcs : List GroupChat) (o g cid : String) (hog : o ≠ g) :
    addToChat (removeFromChat gcs o cid) g cid =
      gcs.map (fun gc =>
        if gc.id = o then
          { gc with characterIds := gc.characterIds.filter (fun x => x ≠ cid) }
        else if gc.id = g then
          { gc with characterIds := gc.characterIds.filter (fun x => x ≠ cid) ++ [cid] }
        else gc) := by
  unfold addToChat removeFromChat
  rw [List.map_map]
  apply List.map_congr_left
  intro gc _
  by_cases h1 : gc.id = o
  · have h2 : ¬(gc.id = g) := fun hh => hog (h1.symm.trans hh)
    simp [Function.comp, h1, h2, hog]
  · by_cases h2 : gc.id = g
    · simp [Function.comp, h1, h2, Ne.symm hog]
    · simp [Function.comp, h1, h2]

/-- `updateCharacter` whose patch reassigns only to a non-empty id of an
existing location preserves well-formedness. -/
theorem wf_updateCharacter (w : World) (cid : String) (u : CharacterPatch)
    (hu : ∀ g, u.groupChatId = some g → g ≠ "" ∧ ∃ L ∈ w.groupChats, L.id = g)
    (hwf : WellFormed w) : WellFormed (updateCharacter w cid u) := by
  have hcons := hwf.1
  have hndc := hwf.2.1
  have hndg := hwf.2.2.1
  have hne := hwf.2.2.2.1
  have hdang := hwf.2.2.2.2
  have hinj := List.inj_on_of_nodup_map hndc
  rw [updateCharacter_eq w cid u hndc]
  cases hfind : w.characters.find? (fun c => c.id = cid) with
  | none =>
    dsimp only
    have hnomatch : ∀ c ∈ w.characters, ¬(c.id = cid) := by
      intro c hc
      have := List.find?_eq_none.mp hfind c hc
      simpa using this
    refine wf_of_char_frame w _ ?_ hwf
    intro c hc
    rw [if_neg (hnomatch c hc)]
    exact ⟨rfl, rfl⟩
  | some ch =>
    dsimp only
    have hch_mem : ch ∈ w.characters := List.mem_of_find?_eq_some hfind
    have hch_id : ch.id = cid := by simpa using List.find?_some hfind
    have K : ∀ c ∈ w.characters, c.id = cid → c = ch := fun c hc hcc =>
      hinj hc hch_mem (hcc.trans hch_id.symm)
    unfold updateCharacterMoveStep
    cases hug : u.groupChatId with
    | none =>
      dsimp only
      refine wf_of_char_frame w _ ?_ hwf
      intro c hc
      by_cases hcc : c.id = cid
      · rw [if_pos hcc]
        refine ⟨rfl, ?_⟩
        unfold applyCharacterPatch
        rw [hug]
        rfl
      · rw [if_neg hcc]
        exact ⟨rfl, rfl⟩
    | some g =>
      dsimp only
      obtain ⟨hgne, L0, hL0mem, hL0id⟩ := hu g hug
      by_cases hgch : g = ch.groupChatId
      · rw [if_neg (fun hh => hh.2 hgch)]
        refine wf_of_char_frame w _ ?_ hwf
        intro c hc
        by_cases hcc : c.id = cid
        · have hceq : c = ch := K c hc hcc
          subst hceq
          rw [if_pos hcc]
          refine ⟨rfl, ?_⟩
          show (applyCharacterPatch c u).groupChatId = c.groupChatId
          unfold applyCharacterPatch
          rw [hug]
          simpa using hgch
        · rw [if_neg hcc]
          exact ⟨rfl, rfl⟩
      · rw [if_pos ⟨hgne, hgch⟩]
        rw [addToChat_removeFromChat_eq w.groupChats ch.groupChatId g cid
          (fun hh => hgch hh.symm)]
        have hpid : ∀ c : Character,
            (if c.id = cid then applyCharacterPatch c u else c).id = c.id := by
          intro c
          by_cases hcc : c.id = cid <;> simp [hcc, applyCharacterPatch]
        have hpgc_ne : ∀ c : Character, ¬(c.id = cid) →
            (if c.id = cid then applyCharacterPatch c u else c).groupChatId =
              c.groupChatId := by
          intro c hcc
          rw [if_neg hcc]
        have hpch : (if ch.id = cid then applyCharacterPatch ch u else ch).groupChatId = g := by
          rw [if_pos hch_id]
          simp [applyCharacterPatch, hug]
        have hFid : ∀ gc ∈ w.groupChats,
            (if gc.id = ch.groupChatId then
              { gc with characterIds := gc.characterIds.filter (fun x => x ≠ cid) }
            else if gc.id = g then
              { gc with characterIds := gc.characterIds.filter (fun x => x ≠ cid) ++ [cid] }
            else gc).id = gc.id := by
          intro gc hg2
          by_cases h1 : gc.id = ch.groupChatId
          · simp [h1]
          · by_cases h2 : gc.id = g <;> simp [h1, h2, hgch]
        refine wellFormed_mk _ _ ?_ ?_ ?_ ?_ ?_
        · intro L' hL'
          obtain ⟨g0, hg0, rfl⟩ := List.mem_map.mp hL'
          have hinv0 := hcons g0 hg0
          by_cases h1 : g0.id = ch.groupChatId
          · rw [if_pos h1]
            refine invariantAt_mk _ _ _ ?_ ?_
            · intro x hx
              have hx' := List.mem_filter.mp hx
              have hxc : x ≠ cid := by simpa using hx'.2
              obtain ⟨c, hc, hcid, hcg⟩ := hinv0.1 x hx'.1
              have hcne : ¬(c.id = cid) := by
                rw [hcid]
                exact hxc
              refine ⟨_, List.mem_map_of_mem _ hc, ?_, ?_⟩
              · rw [if_neg hcne]
                exact hcid
              · rw [if_neg hcne]
                exact hcg
            · intro y hy hyg
              obtain ⟨c, hc, rfl⟩ := List.mem_map.mp hy
              by_cases hcc : c.id = cid
              · have hceq : c = ch := K c hc hcc
                subst hceq
                rw [hpch] at hyg
                exact absurd (hyg.trans h1) hgch
              · rw [if_neg hcc] at hyg ⊢
                refine List.mem_filter.mpr ⟨hinv0.2 c hc hyg, ?_⟩
                simpa using hcc
          · by_cases h2 : g0.id = g
            · rw [if_neg h1, if_pos h2]
              refine invariantAt_mk _ _ _ ?_ ?_
              · intro x hx
                rcases List.mem_append.mp hx with hx2 | hx2
                · have hx' := List.mem_filter.mp hx2
                  have hxc : x ≠ cid := by simpa using hx'.2
                  obtain ⟨c, hc, hcid, hcg⟩ := hinv0.1 x hx'.1
                  have hcne : ¬(c.id = cid) := by
                    rw [hcid]
                    exact hxc
                  refine ⟨_, List.mem_map_of_mem _ hc, ?_, ?_⟩
                  · rw [if_neg hcne]
                    exact hcid
                  · rw [if_neg hcne]
                    exact hcg
                · have hxcid : x = cid := by simpa using hx2
                  subst hxcid
                  refine ⟨_, List.mem_map_of_mem _ hch_mem, ?_, ?_⟩
                  · rw [if_pos hch_id]
                    exact hch_id
                  · rw [hpch]
                    exact h2.symm
              · intro y hy hyg
                obtain ⟨c, hc, rfl⟩ := List.mem_map.mp hy
                by_cases hcc : c.id = cid
                · have hceq : c = ch := K c hc hcc
                  subst hceq
                  rw [if_pos hch_id]
                  have hid2 : (applyCharacterPatch c u).id = cid := hch_id
                  rw [hid2]
                  exact List.mem_append_right _ (by simp)
                · rw [if_neg hcc] at hyg ⊢
                  have : c.id ∈ g0.characterIds := hinv0.2 c hc hyg
                  refine List.mem_append_left _ (List.mem_filter.mpr ⟨this, ?_⟩)
                  simpa using hcc
            · rw [if_neg h1, if_neg h2]
              refine invariantAt_mk _ _ _ ?_ ?_
              · intro x hx
                obtain ⟨c, hc, hcid, hcg⟩ := hinv0.1 x hx
                have hcne : ¬(c.id = cid) := fun hcc => h1 ((K c hc hcc ▸ hcg).symm)
                refine ⟨_, List.mem_map_of_mem _ hc, ?_, ?_⟩
                · rw [if_neg hcne]
                  exact hcid
                · rw [if_neg hcne]
                  exact hcg
              · intro y hy hyg
                obtain ⟨c, hc, rfl⟩ := List.mem_map.mp hy
                by_cases hcc : c.id = cid
                · have hceq : c = ch := K c hc hcc
                  subst hceq
                  rw [hpch] at hyg
                  exact absurd hyg.symm h2
                · rw [if_neg hcc] at hyg ⊢
                  exact hinv0.2 c hc hyg
        · rw [map_chars_ids _ _ (fun c hc => hpid c)]
          exact hndc
        · rw [map_chats_ids _ _ hFid]
          exact hndg
        · intro g' hg'
          obtain ⟨g0, hg0, rfl⟩ := List.mem_map.mp hg'
          rw [hFid g0 hg0]
          exact hne g0 hg0
        · intro y hy
          obtain ⟨c, hc, rfl⟩ := List.mem_map.mp hy
          by_cases hcc : c.id = cid
          · have hceq : c = ch := K c hc hcc
            subst hceq
            rw [hpch]
            exact Or.inr ((exists_chat_id_map _ _ hFid _).mpr ⟨L0, hL0mem, hL0id⟩)
          · rw [hpgc_ne c hcc]
            rcases hdang c hc with h0 | hex
            · exact Or.inl h0
            · exact Or.inr ((exists_chat_id_map _ _ hFid _).mpr hex)

/-- `deleteCharacter` preserves well-formedness. -/
theorem wf_deleteCharacter (w : World) (cid : String) (hwf : WellFormed w) :
    WellFormed (deleteCharacter w cid) := by
  have hcons := hwf.1
  have hndc := hwf.2.1
  have hndg := hwf.2.2.1
  have hne := hwf.2.2.2.1
  have hdang := hwf.2.2.2.2
  have hinj := List.inj_on_of_nodup_map hndc
  unfold deleteCharacter
  cases hfind : w.characters.find? (fun c => c.id = cid) with
  | none => exact hwf
  | some ch =>
    dsimp only
    have hch_mem : ch ∈ w.characters := List.mem_of_find?_eq_some hfind
    have hch_id : ch.id = cid := by simpa using List.find?_some hfind
    have K : ∀ c ∈ w.characters, c.id = cid → c = ch := fun c hc hcc =>
      hinj hc hch_mem (hcc.trans hch_id.symm)
    unfold removeFromChat
    have hRid : ∀ gc ∈ w.groupChats,
        (if gc.id = ch.groupChatId then
          { gc with characterIds := gc.characterIds.filter (fun x => x ≠ cid) }
        else gc).id = gc.id := by
      intro gc hg2
      by_cases h1 : gc.id = ch.groupChatId <;> simp [h1]
    refine wellFormed_mk _ _ ?_ ?_ ?_ ?_ ?_
    · intro L' hL'
      obtain ⟨g0, hg0, rfl⟩ := List.mem_map.mp hL'
      have hinv0 := hcons g0 hg0
      by_cases h1 : g0.id = ch.groupChatId
      · rw [if_pos h1]
        refine invariantAt_mk _ _ _ ?_ ?_
        · intro x hx
          have hx' := List.mem_filter.mp hx
          have hxc : x ≠ cid := by simpa using hx'.2
          obtain ⟨c, hc, hcid, hcg⟩ := hinv0.1 x hx'.1
          have hcne : ¬(c.id = cid) := by
            rw [hcid]
            exact hxc
          refine ⟨_, List.mem_filter.mpr ⟨List.mem_map_of_mem _ hc, by simpa using hcne⟩,
            hcid, hcg⟩
        · intro y hy hyg
          have hy' := List.mem_filter.mp hy
          obtain ⟨c, hc, rfl⟩ := List.mem_map.mp hy'.1
          have hcne : ¬(c.id = cid) := by simpa using hy'.2
          refine List.mem_filter.mpr ⟨hinv0.2 c hc hyg, ?_⟩
          simpa using hcne
      · rw [if_neg h1]
        refine invariantAt_mk _ _ _ ?_ ?_
        · intro x hx
          obtain ⟨c, hc, hcid, hcg⟩ := hinv0.1 x hx
          have hcne : ¬(c.id = cid) := fun hcc => h1 ((K c hc hcc ▸ hcg).symm)
          refine ⟨_, List.mem_filter.mpr ⟨List.mem_map_of_mem _ hc, by simpa using hcne⟩,
            hcid, hcg⟩
        · intro y hy hyg
          have hy' := List.mem_filter.mp hy
          obtain ⟨c, hc, rfl⟩ := List.mem_map.mp hy'.1
          exact hinv0.2 c hc hyg
    · have hsub : (((w.characters.map (fun c =>
          { c with knownCharacterIds := c.knownCharacterIds.filter (fun k => k ≠ cid) })).filter
          (fun c => c.id ≠ cid)).map (fun c => c.id)).Sublist
            ((w.characters.map (fun c =>
              { c with knownCharacterIds := c.knownCharacterIds.filter (fun k => k ≠ cid) })).map
              (fun c => c.id)) :=
        (List.filter_sublist _).map _
      have heq : (w.characters.map (fun c =>
          { c with knownCharacterIds := c.knownCharacterIds.filter (fun k => k ≠ cid) })).map
          (fun c => c.id) = w.characters.map (fun c => c.id) :=
        map_chars_ids _ _ (fun c hc => rfl)
      rw [heq] at hsub
      exact hndc.sublist hsub
    · rw [map_chats_ids _ _ hRid]
      exact hndg
    · intro g' hg'
      obtain ⟨g0, hg0, rfl⟩ := List.mem_map.mp hg'
      rw [hRid g0 hg0]
      exact hne g0 hg0
    · intro y hy
      have hy' := List.mem_filter.mp hy
      obtain ⟨c, hc, rfl⟩ := List.mem_map.mp hy'.1
      rcases hdang c hc with h0 | hex
      · exact Or.inl h0
      · exact Or.inr ((exists_chat_id_map _ _ hRid _).mpr hex)

/-- The characters surviving `deleteGroupChat` are exactly those assigned
elsewhere, with dangling references scrubbed; the location is gone. -/
theorem deleteGroupChat_spec (w : World) (gid : String)
    (hnd : (w.characters.map (fun c => c.id)).Nodup) :
    (deleteGroupChat w gid).characters =
      (w.characters.filter (fun c => c.groupChatId ≠ gid)).map
        (fun c =>
          { c with knownCharacterIds :=
              c.knownCharacterIds.filter (fun k =>
                k ∉ (w.characters.filter (fun c => c.groupChatId = gid)).map
                  (fun c => c.id)) }) ∧
    (∀ g ∈ (deleteGroupChat w gid).groupChats, g.id ≠ gid) := by
  have htargets_ids_nodup :
      ((w.characters.filter (fun c => c.groupChatId = gid)).map (fun c => c.id)).Nodup := by
    have hsub : ((w.characters.filter (fun c => c.groupChatId = gid)).map
        (fun c => c.id)).Sublist (w.characters.map (fun c => c.id)) :=
      (List.filter_sublist _).map _
    exact hnd.sublist hsub
  have hexists : ∀ i ∈ (w.characters.filter (fun c => c.groupChatId = gid)).map
      (fun c => c.id), ∃ c ∈ w.characters, c.id = i := by
    intro i hi
    obtain ⟨t, ht, hti⟩ := List.mem_map.mp hi
    exact ⟨t, (List.mem_filter.mp ht).1, hti⟩
  have hfold := foldl_deleteCharacter_characters
    ((w.characters.filter (fun c => c.groupChatId = gid)).map (fun c => c.id)) w hnd
    htargets_ids_nodup hexists
  have hinj := List.inj_on_of_nodup_map hnd
  have hfold2 : ((w.characters.filter (fun c => c.groupChatId = gid)).foldl
      (fun w c => deleteCharacter w c.id) w).characters =
      (w.characters.filter (fun c =>
        c.id ∉ (w.characters.filter (fun c => c.groupChatId = gid)).map (fun c => c.id))).map
        (fun c =>
          { c with knownCharacterIds :=
              c.knownCharacterIds.filter (fun k =>
                k ∉ (w.characters.filter (fun c => c.groupChatId = gid)).map
                  (fun c => c.id)) }) := by
    rw [← List.foldl_map (fun c : Character => c.id) (fun w i => deleteCharacter w i)]
    exact hfold
  have hpred : (w.characters.filter (fun c =>
      c.id ∉ (w.characters.filter (fun c => c.groupChatId = gid)).map (fun c => c.id))) =
      w.characters.filter (fun c => c.groupChatId ≠ gid) := by
    apply List.filter_congr
    intro c hc
    simp only [decide_eq_decide]
    constructor
    · intro hnot
      intro hgc
      apply hnot
      exact List.mem_map_of_mem _ (List.mem_filter.mpr ⟨hc, by simpa using hgc⟩)
    · intro hne hmem
      obtain ⟨t, ht, hti⟩ := List.mem_map.mp hmem
      have ht' := List.mem_filter.mp ht
      have : t = c := hinj ht'.1 hc hti
      rw [this] at ht'
      exact hne (by simpa using ht'.2)
  constructor
  · simp only [deleteGroupChat]
    rw [hfold2, hpred]
  · intro g hg
    simp only [deleteGroupChat] at hg
    have := List.mem_filter.mp hg
    simpa using this.2

/-- Folding `deleteCharacter` over any character list preserves
well-formedness. -/
theorem wf_foldl_deleteChar (cs : List Character) :
    ∀ w : World, WellFormed w →
      WellFormed (cs.foldl (fun w c => deleteCharacter w c.id) w) := by
  induction cs with
  | nil => intro w hwf; exact hwf
  | cons c cs ih =>
    intro w hwf
    simp only [List.foldl_cons]
    exact ih _ (wf_deleteCharacter w c.id hwf)

/-- `deleteGroupChat` preserves well-formedness. -/
theorem wf_deleteGroupChat (w : World) (gid : String) (hwf : WellFormed w) :
    WellFormed (deleteGroupChat w gid) := by
  have hndc := hwf.2.1
  have hwf' : WellFormed ((w.characters.filter (fun c => c.groupChatId = gid)).foldl
      (fun w c => deleteCharacter w c.id) w) :=
    wf_foldl_deleteChar _ w hwf
  have hgone : ∀ y ∈ (deleteGroupChat w gid).characters, y.groupChatId ≠ gid := by
    intro y hy
    rw [(deleteGroupChat_spec w gid hndc).1] at hy
    obtain ⟨c, hc, rfl⟩ := List.mem_map.mp hy
    have := List.mem_filter.mp hc
    simpa using this.2
  obtain ⟨hcons', hndc', hndg', hne', hdang'⟩ := hwf'
  simp only [deleteGroupChat]
  refine wellFormed_mk _ _ ?_ hndc' ?_ ?_ ?_
  · intro L hL
    exact hcons' L (List.mem_filter.mp hL).1
  · exact hndg'.sublist ((List.filter_sublist _).map _)
  · intro g hg
    exact hne' g (List.mem_filter.mp hg).1
  · intro y hy
    rcases hdang' y hy with h0 | hex
    · exact Or.inl h0
    · obtain ⟨g', hg', hgid⟩ := hex
      have hgne2 : g'.id ≠ gid := fun hh => hgone y hy (hgid.symm.trans hh)
      exact Or.inr ⟨g', List.mem_filter.mpr ⟨hg', by simpa using hgne2⟩, hgid⟩

/-- Applying a character turn's staged relocation updates preserves
well-formedness. -/
theorem wf_applyMoveTurn (w : World) (cid destName : String) (hwf : WellFormed w) :
    WellFormed (applyMoveTurn w cid destName) := by
  have hndc := hwf.2.1
  have hinj := List.inj_on_of_nodup_map hndc
  unfold applyMoveTurn
  cases hfc : w.characters.find? (fun c => c.id = cid) with
  | none => exact hwf
  | some ch =>
    dsimp only
    cases hfg : w.groupChats.find? (fun g => g.id = ch.groupChatId) with
    | none => exact hwf
    | some chat =>
      dsimp only
      cases hfd : w.groupChats.find? (fun g => g.name = destName) with
      | none => exact hwf
      | some dest =>
        dsimp only
        by_cases hid : dest.id ≠ ch.groupChatId
        · rw [if_pos hid]
          have hch_mem : ch ∈ w.characters := List.mem_of_find?_eq_some hfc
          have hch_id : ch.id = cid := by simpa using List.find?_some hfc
          have hchat_mem : chat ∈ w.groupChats := List.mem_of_find?_eq_some hfg
          have hchat_id : chat.id = ch.groupChatId := by simpa using List.find?_some hfg
          have hdest_mem : dest ∈ w.groupChats := List.mem_of_find?_eq_some hfd
          have hinvchat := hwf.1 chat hchat_mem
          have hinvdest := hwf.1 dest hdest_mem
          have hwf1 : WellFormed (updateCharacter w cid { groupChatId := some dest.id }) := by
            refine wf_updateCharacter w cid _ ?_ hwf
            intro g' hg'
            have hg2 : dest.id = g' := by simpa using hg'
            subst hg2
            exact ⟨hwf.2.2.2.1 dest hdest_mem, dest, hdest_mem, rfl⟩
          have hset1 : ∀ x, x ∈ chat.characterIds.filter (fun y => y ≠ cid) ↔
              ∃ c ∈ (updateCharacter w cid { groupChatId := some dest.id }).characters,
                c.id = x ∧ c.groupChatId = chat.id := by
            intro x
            constructor
            · intro hx
              have hx' := List.mem_filter.mp hx
              have hxc : x ≠ cid := by simpa using hx'.2
              obtain ⟨c, hc, hcid, hcg⟩ := hinvchat.1 x hx'.1
              have hcne : ¬(c.id = cid) := by
                rw [hcid]
                exact hxc
              refine ⟨_, List.mem_map_of_mem _ hc, ?_, ?_⟩
              · rw [if_neg hcne]
                exact hcid
              · rw [if_neg hcne]
                exact hcg
            · rintro ⟨y, hy, hyid, hyg⟩
              obtain ⟨c, hc, rfl⟩ := List.mem_map.mp hy
              by_cases hcc : c.id = cid
              · exfalso
                have hgc : (if c.id = cid then
                    applyCharacterPatch c { groupChatId := some dest.id }
                  else c).groupChatId = dest.id := by
                  rw [if_pos hcc]
                  rfl
                rw [hgc] at hyg
                exact hid (hyg.trans hchat_id)
              · rw [if_neg hcc] at hyg hyid
                rw [← hyid]
                refine List.mem_filter.mpr ⟨hinvchat.2 c hc hyg, ?_⟩
                simpa using hcc
          have hwf2 : WellFormed (updateGroupChat
              (updateCharacter w cid { groupChatId := some dest.id }) chat.id
              { characterIds := some (chat.characterIds.filter (fun x => x ≠ cid)) }) :=
            wf_updateGroupChat_members _ chat.id _ hset1 hwf1
          have hset2 : ∀ x, x ∈ dest.characterIds.filter (fun y => y ≠ cid) ++ [cid] ↔
              ∃ c ∈ (updateGroupChat
                  (updateCharacter w cid { groupChatId := some dest.id }) chat.id
                  { characterIds := some (chat.characterIds.filter (fun x => x ≠ cid)) }).characters,
                c.id = x ∧ c.groupChatId = dest.id := by
            intro x
            constructor
            · intro hx
              rcases List.mem_append.mp hx with hx2 | hx2
              · have hx' := List.mem_filter.mp hx2
                have hxc : x ≠ cid := by simpa using hx'.2
                obtain ⟨c, hc, hcid, hcg⟩ := hinvdest.1 x hx'.1
                have hcne : ¬(c.id = cid) := by
                  rw [hcid]
                  exact hxc
                refine ⟨_, List.mem_map_of_mem _ hc, ?_, ?_⟩
                · rw [if_neg hcne]
                  exact hcid
                · rw [if_neg hcne]
                  exact hcg
              · have hxcid : x = cid := by simpa using hx2
                subst hxcid
                refine ⟨_, List.mem_map_of_mem _ hch_mem, ?_, ?_⟩
                · rw [if_pos hch_id]
                  exact hch_id
                · rw [if_pos hch_id]
                  rfl
            · rintro ⟨y, hy, hyid, hyg⟩
              obtain ⟨c, hc, rfl⟩ := List.mem_map.mp hy
              by_cases hcc : c.id = cid
              · have hidc : (if c.id = cid then
                    applyCharacterPatch c { groupChatId := some dest.id }
                  else c).id = c.id := by
                  rw [if_pos hcc]
                  rfl
                rw [hidc] at hyid
                rw [← hyid, hcc]
                exact List.mem_append_right _ (by simp)
              · rw [if_neg hcc] at hyg hyid
                rw [← hyid]
                refine List.mem_append_left _ (List.mem_filter.mpr
                  ⟨hinvdest.2 c hc hyg, ?_⟩)
                simpa using hcc
          exact wf_updateGroupChat_members _ dest.id _ hset2 hwf2
        · rw [if_neg hid]
          exact hwf

/-- Every defined mutation operation, under its side conditions, preserves
well-formedness. -/
theorem wellFormed_of_step (w w' : World) (h : WorldStep w w') (hwf : WellFormed w) :
    WellFormed w' := by
  cases h with
  | createChar c h1 h2 => exact wf_createCharacter w c h1 h2 hwf
  | updateChar cid u h1 => exact wf_updateCharacter w cid u h1 hwf
  | deleteChar cid => exact wf_deleteCharacter w cid hwf
  | createChat g h1 h2 h3 => exact wf_createGroupChat w g h1 h2 h3 hwf
  | updateChat gid u h1 => exact wf_updateGroupChat_frame w gid u h1 hwf
  | deleteChat gid => exact wf_deleteGroupChat w gid hwf
  | removeFromChatStep chatId cid h1 => exact wf_removeCharacterFromChat w chatId cid h1 hwf
  | moveTurn cid destName => exact wf_applyMoveTurn w cid destName hwf

/-- Well-formedness is preserved along every sequence of steps. -/
theorem wellFormed_of_steps (w w' : World) (h : Relation.ReflTransGen WorldStep w w')
    (hwf : WellFormed w) : WellFormed w' := by
  induction h with
  | refl => exact hwf
  | tail hab hbc ih => exact wellFormed_of_step _ _ hbc ih

/-- C1 (corrected): starting from a well-formed world, every sequence of
the defined mutation operations, under the argument side conditions the UI
enforces, keeps the bidirectional index invariant: each location's member
list holds exactly the ids of the characters assigned to it. -/
theorem c1_bidirectional_index (w w' : World) (hwf : WellFormed w)
    (hsteps : Relation.ReflTransGen WorldStep w w') : Consistent w' :=
  (wellFormed_of_steps w w' hsteps hwf).1

/-- C1 counterexample: on a consistent (indeed well-formed) world,
`updateCharacter` with a patch carrying `groupChatId := ""` rewrites the
assignment but skips the location bookkeeping (JS truthiness), breaking
the invariant. -/
theorem c1_counterexample_empty_reassignment :
    WellFormed { characters := [sampleChar], groupChats := [sampleChat] } ∧
    ¬ Consistent (updateCharacter { characters := [sampleChar], groupChats := [sampleChat] }
      "c1" { groupChatId := some "" }) := by
  constructor
  · decide
  · decide

/-- C1 witness: a concrete two-step run (create a location, then create a
character assigned to it) from the empty world, concluding consistency. -/
theorem c1_bidirectional_index_witness :
    Consistent (createCharacter (createGroupChat { characters := [], groupChats := [] }
      emptyHomeChat) sampleChar) :=
  c1_bidirectional_index { characters := [], groupChats := [] } _ (by decide)
    (Relation.ReflTransGen.tail
      (Relation.ReflTransGen.single (WorldStep.createChat _ emptyHomeChat (by decide) (by decide)
        (by decide)))
      (WorldStep.createChar _ sampleChar (by decide) (by decide)))

end OneMind
